import Mathlib

/-! Verification of the cache-helpers layer: a shallow embedding of the
query cache, tag registry, batched entity cache (array and object views) and
counter cache, together with proofs of the specification claims about them.

Modelling conventions.
* Time is an integer count of milliseconds; a JS Date value is its timestamp.
  The redis option EX ttl (ttl in seconds) is stored as the absolute expiry
  now + ttl * 1000; a key is live while now < expiry.
* Entity-cache keys have the shape prefix:id with a fixed, per-instance
  prefix, so the entity store is keyed directly by the numeric id; likewise
  the counter store.  The query cache and the tag registry use string keys.
* JS records (Object.fromEntries, Object.assign, bracket indexing) are
  association lists with replace-or-append writes: insertion order, the last
  written value wins.  JS Set iteration order is insertion order.
* idKey is the field id of the entity record.
* The lookup collaborator contract (spec section 6) is modelled pointwise by
  a database function from id to an optional payload: the collaborator
  returns the mapping that sends each found id of the requested batch to its
  entity, and entities carry their id and no envelope fields.
* Asynchronous operations are modelled as atomic state transformers. -/

namespace CacheHelpers

/-- Association-list lookup: the value of the first pair with the given key. -/
def aget {κ β : Type} [DecidableEq κ] : List (κ × β) → κ → Option β
  | [], _ => none
  | p :: rest, k => if p.1 = k then some p.2 else aget rest k

/-- Association-list write: replace the first pair with the given key in
place, or append a new pair. -/
def aset {κ β : Type} [DecidableEq κ] : List (κ × β) → κ → β → List (κ × β)
  | [], k, v => [(k, v)]
  | p :: rest, k, v => if p.1 = k then (k, v) :: rest else p :: aset rest k v

/-- Association-list delete: remove every pair with the given key. -/
def adel {κ β : Type} [DecidableEq κ] : List (κ × β) → κ → List (κ × β)
  | [], _ => []
  | p :: rest, k => if p.1 = k then adel rest k else p :: adel rest k

/-- JS Object.fromEntries (also iterated Object.assign): fold the pairs into
a record by replace-or-append writes, so the last value for a key wins. -/
def jsFromEntries {κ β : Type} [DecidableEq κ] (ps : List (κ × β)) : List (κ × β) :=
  ps.foldl (fun m p => aset m p.1 p.2) []

/-- JS new Set(ids) iteration: first occurrence of each element, in order.
The accumulator holds the elements already seen. -/
def dedupAux (seen : List Nat) : List Nat → List Nat
  | [] => []
  | x :: rest => if x ∈ seen then dedupAux seen rest else x :: dedupAux (x :: seen) rest

/-- JS spread of new Set(ids). -/
def dedupNat (l : List Nat) : List Nat := dedupAux [] l

/-- Fuel-driven body of lodash chunk; the fuel makes the recursion structural
(chunk with size 0 yields the empty list, as in lodash). -/
def chunkListAux {α : Type} (n : Nat) : Nat → List α → List (List α)
  | 0, _ => []
  | _, [] => []
  | fuel + 1, l => if n = 0 then [] else l.take n :: chunkListAux n fuel (l.drop n)

/-- lodash chunk: split a list into consecutive chunks of at most n elements. -/
def chunkList {α : Type} (n : Nat) (l : List α) : List (List α) :=
  chunkListAux n l.length l

/-- Entity-cache record: the entity payload together with the envelope fields
notFound, debounce and cachedAt that the cache layers on top of it.  A field
that is absent on the JS object is the default (false, or none). -/
structure Entry where
  id : Nat
  val : Option String := none
  notFound : Bool := false
  debounce : Bool := false
  cachedAt : Option Int := none
deriving DecidableEq, Repr

/-- Entity returned by the lookup collaborator for a found id: the payload
keyed by the id, with no envelope fields. -/
def entityOf (id : Nat) (v : String) : Entry := { id := id, val := some v }

/-- Tombstone written on a confirmed-absent lookup. -/
def tombstoneEntry (id : Nat) (cachedAt : Int) : Entry :=
  { id := id, notFound := true, cachedAt := some cachedAt }

/-- Debounce marker written by bust.  Note that it carries no cachedAt. -/
def debounceEntry (id : Nat) : Entry := { id := id, debounce := true }

/-- Erase the cachedAt envelope timestamp of an entry. -/
def stripCachedAt (e : Entry) : Entry := { e with cachedAt := none }

/-- JS comparison cached.cachedAt > cutoff: when cachedAt is absent the
comparison is undefined > Date, which converts to NaN and yields false. -/
def jsGtOpt : Option Int → Int → Bool
  | none, _ => false
  | some t, c => decide (c < t)

/-- Entity-cache store: id maps to a stored entry and its absolute expiry. -/
abbrev Store := List (Nat × (Entry × Option Int))

/-- Liveness of a stored value at an instant. -/
def liveAt (now : Int) : Option Int → Bool
  | none => true
  | some e => decide (now < e)

/-- redis GET (packed): a live entry, or nothing. -/
def rget (s : Store) (now : Int) (id : Nat) : Option Entry :=
  match aget s id with
  | some (e, exp) => if liveAt now exp then some e else none
  | none => none

/-- redis SET with optional EX: store the entry, replacing any previous value
and expiry at that key. -/
def rsetEx (s : Store) (now : Int) (id : Nat) (e : Entry) (ttl : Option Int) : Store :=
  aset s id (e, ttl.map (fun t => now + t * 1000))

/-- redis SET NX: write only when the key has no live value; returns the
updated store and whether the write happened.  A SET NX write carries no
expiry (the primitive used by the code takes no EX argument). -/
def rsetNX (s : Store) (now : Int) (id : Nat) (e : Entry) : Store × Bool :=
  if (rget s now id).isSome then (s, false) else (aset s id (e, none), true)

/-- redis EXPIRE: reset the expiry of a live key; no-op on a missing key. -/
def rexpire (s : Store) (now : Int) (id : Nat) (ttl : Int) : Store :=
  match aget s id with
  | some (e, exp) => if liveAt now exp then aset s id (e, some (now + ttl * 1000)) else s
  | none => s

/-- Behaviour of the lookup collaborator on a batch, per its contract: the
record mapping each id of the batch that the database knows to its entity. -/
def lookupRecord (db : Nat → Option String) (ids : List Nat) : List (Nat × Entry) :=
  ids.filterMap (fun i => (db i).map (fun v => (i, entityOf i v)))

/-- Per-instance options of createCachedArray (key and idKey are fixed by the
modelling conventions; ttl and debounceTime are in seconds). -/
structure CacheConfig where
  ttl : Int
  debounceTime : Int
  cacheNotFound : Bool
  appendFn : Option (List Entry → List Entry)

/-- Classification loop of fetch over the de-duplicated ids: returns the
cached positive results, the cache misses and the do-not-cache ids, each in
insertion order, exactly as the single JS loop builds its three sets. -/
def classifyLoop (cache : List (Nat × Entry)) (cutoff : Int) :
    List Nat → List Entry × List Nat × List Nat
  | [] => ([], [], [])
  | id :: rest =>
    let r := classifyLoop cache cutoff rest
    match aget cache id with
    | some cached =>
      if cached.notFound then r
      else if cached.debounce then
        (r.1, id :: r.2.1, if jsGtOpt cached.cachedAt cutoff then id :: r.2.2 else r.2.2)
      else (cached :: r.1, r.2.1, r.2.2)
    | none => (r.1, id :: r.2.1, r.2.2)

/-- Miss loop of fetch: for every cache miss, add the looked-up result to the
output and schedule the write-backs, building (results, toCache,
toCacheNotFound) in insertion order. -/
def missLoop (dbResults : List (Nat × Entry)) (dontCache : List Nat) (cachedAt : Int)
    (cacheNotFound : Bool) : List Nat → List Entry × List (Nat × Entry) × List (Nat × Entry)
  | [] => ([], [], [])
  | id :: rest =>
    let r := missLoop dbResults dontCache cachedAt cacheNotFound rest
    match aget dbResults id with
    | none =>
      if cacheNotFound then (r.1, r.2.1, (id, tombstoneEntry id cachedAt) :: r.2.2) else r
    | some result =>
      (result :: r.1,
       if id ∈ dontCache then r.2.1 else (id, { result with cachedAt := some cachedAt }) :: r.2.1,
       r.2.2)

/-- Batched multi-get phase of fetch: read the requested keys in chunks of at
most 200 and keep the non-null cached entries. -/
def cacheResultsOf (s : Store) (now : Int) (ids : List Nat) : List Entry :=
  ((chunkList 200 ids).map
    (fun batch => (batch.map (fun id => rget s now id)).filterMap (fun x => x))).flatten

/-- Batched lookup phase of fetch: call the lookup collaborator in chunks of
at most 10000 ids and merge the partial records with Object.assign. -/
def dbResultsOf (db : Nat → Option String) (misses : List Nat) : List (Nat × Entry) :=
  jsFromEntries ((chunkList 10000 misses).map (fun batch => lookupRecord db batch)).flatten

/-- Write-back of the positive results: one SET with EX ttl per entry. -/
def writeCache (now ttl : Int) (s : Store) (toCache : List (Nat × Entry)) : Store :=
  toCache.foldl (fun st p => rsetEx st now p.1 p.2 (some ttl)) s

/-- Tombstone write-back step of fetch for one id: a SET NX (so that an
existing value is never overwritten by a not-found marker) followed by an
unconditional EXPIRE with the configured ttl. -/
def writeNotFound (now ttl : Int) (st : Store) (p : Nat × Entry) : Store :=
  rexpire (rsetNX st now p.1 p.2).1 now p.1 ttl

/-- Tombstone write-back of fetch over all confirmed-absent ids. -/
def writeTombstones (now ttl : Int) (s : Store) (ps : List (Nat × Entry)) : Store :=
  ps.foldl (writeNotFound now ttl) s

/-- Optional append collaborator applied to the accumulated result set. -/
def applyAppend (f : Option (List Entry → List Entry)) (l : List Entry) : List Entry :=
  match f with
  | some g => g l
  | none => l

/-- fetch of createCachedArray.  Returns the result list (the spread of the
JS result Set, in insertion order), the updated store, and the list of
batches passed to the lookup collaborator (one element per collaborator
invocation). -/
def fetch (cfg : CacheConfig) (db : Nat → Option String) (now : Int) (s : Store)
    (ids : List Nat) : List Entry × Store × List (List Nat) :=
  if ids.isEmpty then ([], s, [])
  else
    let cache := jsFromEntries ((cacheResultsOf s now ids).map (fun x => (x.id, x)))
    let cutoff := now - cfg.debounceTime * 1000
    let c := classifyLoop cache cutoff (dedupNat ids)
    if c.2.1.isEmpty then (applyAppend cfg.appendFn c.1, s, [])
    else
      let dbResults := dbResultsOf db c.2.1
      let m := missLoop dbResults c.2.2 now cfg.cacheNotFound c.2.1
      let s2 := writeTombstones now cfg.ttl (writeCache now cfg.ttl s m.2.1) m.2.2
      (applyAppend cfg.appendFn (c.1 ++ m.1), s2, chunkList 10000 c.2.1)

/-- bust of createCachedArray: overwrite each id's entry with a debounce
marker whose expiry is the debounce window. -/
def bust (cfg : CacheConfig) (now : Int) (s : Store) (ids : List Nat) : Store :=
  if ids.isEmpty then s
  else ids.foldl (fun st id => rsetEx st now id (debounceEntry id) (some cfg.debounceTime)) s

/-- refresh of createCachedArray: force-invoke the lookup collaborator, write
each returned entity with a fresh cachedAt, and delete the entries of the
ids the collaborator did not return.  The EX ttl options object of the source
is the second argument of Array.prototype.map, not of the set call, so these
writes carry no expiry (a plain SET also clears any previous expiry). -/
def refresh (_cfg : CacheConfig) (db : Nat → Option String) (now : Int) (s : Store)
    (ids : List Nat) : Store :=
  let results := lookupRecord db ids
  let s1 := results.foldl (fun st p => aset st p.1 ({ p.2 with cachedAt := some now }, none)) s
  let toRemove := ids.filter (fun id => (aget (jsFromEntries results) id).isNone)
  toRemove.foldl (fun st id => adel st id) s1

/-- Operations of the array view. -/
structure CachedArrayOps where
  fetch : Int → Store → List Nat → List Entry × Store × List (List Nat)
  bust : Int → Store → List Nat → Store
  refresh : Int → Store → List Nat → Store

/-- createCachedArray: package fetch, bust and refresh over the instance
options and the lookup collaborator. -/
def createCachedArray (cfg : CacheConfig) (db : Nat → Option String) : CachedArrayOps where
  fetch := fun now s ids => fetch cfg db now s ids
  bust := fun now s ids => bust cfg now s ids
  refresh := fun now s ids => refresh cfg db now s ids

/-- Operations of the object view: fetch returns a record keyed by the
stringified identifier. -/
structure CachedObjectOps where
  fetch : Int → Store → List Nat → List (String × Entry) × Store × List (List Nat)
  bust : Int → Store → List Nat → Store
  refresh : Int → Store → List Nat → Store

/-- createCachedObject: re-key the array view's fetch result by the
stringified id field; bust and refresh are the array view's, spread
unchanged. -/
def createCachedObject (cfg : CacheConfig) (db : Nat → Option String) : CachedObjectOps :=
  let cachedArray := createCachedArray cfg db
  { fetch := fun now s ids =>
      let r := cachedArray.fetch now s ids
      (jsFromEntries (r.1.map (fun x => (toString x.id, x))), r.2.1, r.2.2)
    bust := cachedArray.bust
    refresh := cachedArray.refresh }

/-- Counter store: id maps to an integer value and its absolute expiry. -/
abbrev CStore := List (Nat × (Int × Option Int))

/-- redis GET on a counter key. -/
def cGet (s : CStore) (now : Int) (id : Nat) : Option Int :=
  match aget s id with
  | some (v, exp) => if liveAt now exp then some v else none
  | none => none

/-- redis SET with EX on a counter key. -/
def cSetEx (s : CStore) (now : Int) (id : Nat) (v : Int) (ttl : Option Int) : CStore :=
  aset s id (v, ttl.map (fun t => now + t * 1000))

/-- redis INCRBY: add to a live value keeping its expiry; on a missing or
expired key, create the value with no expiry. -/
def cIncrBy (s : CStore) (now : Int) (id : Nat) (amount : Int) : CStore :=
  match aget s id with
  | some (v, exp) => if liveAt now exp then aset s id (v + amount, exp) else aset s id (amount, none)
  | none => aset s id (amount, none)

/-- get of cachedCounter: Number(await redis.get(key) ?? 0) is truthy exactly
when it is nonzero; on a miss (or a stored zero) fetch the count, store it
with the ttl, and return it. -/
def cachedCounterGet (fetchFn : Option (Nat → Int)) (ttl now : Int) (s : CStore)
    (id : Nat) : Int × CStore :=
  let cachedCount := (cGet s now id).getD 0
  if cachedCount ≠ 0 then (cachedCount, s)
  else
    let count := match fetchFn with
      | some f => f id
      | none => 0
    (count, cSetEx s now id count (some ttl))

/-- incrementBy of cachedCounter: read the current value via get, INCRBY the
stored integer, and return previous + amount. -/
def cachedCounterIncrementBy (fetchFn : Option (Nat → Int)) (ttl now : Int) (s : CStore)
    (id : Nat) (amount : Int) : Int × CStore :=
  let r := cachedCounterGet fetchFn ttl now s id
  (r.1 + amount, cIncrBy r.2 now id amount)

/-- clear of cachedCounter: delete the counter entry. -/
def cachedCounterClear (s : CStore) (id : Nat) : CStore := adel s id

/-- Rows and parameterized queries are opaque to the cache layer. -/
abbrev Row := String

/-- Opaque parameterized query. -/
abbrev Sql := String

/-- Combined redis state used by the query cache and the tag registry: packed
row-list values with expiry, and plain sets for the tag registry. -/
structure QState where
  kv : List (String × (List Row × Option Int))
  sets : List (String × List String)
deriving DecidableEq, Repr

/-- redis packed GET of a cached query result. -/
def qget (s : QState) (now : Int) (k : String) : Option (List Row) :=
  match aget s.kv k with
  | some (rows, exp) => if liveAt now exp then some rows else none
  | none => none

/-- redis packed SET with optional EX of a query result. -/
def qsetEx (s : QState) (now : Int) (k : String) (rows : List Row) (ttl : Option Int) : QState :=
  { s with kv := aset s.kv k (rows, ttl.map (fun t => now + t * 1000)) }

/-- redis SADD: add a member to a set, creating the set when absent. -/
def sAdd (s : QState) (k member : String) : QState :=
  let cur := (aget s.sets k).getD []
  { s with sets := aset s.sets k (if member ∈ cur then cur else cur ++ [member]) }

/-- redis SMEMBERS: the members of a set, or nothing for a missing key. -/
def sMembers (s : QState) (k : String) : List String :=
  (aget s.sets k).getD []

/-- redis DEL: delete a key of either kind. -/
def rdel (s : QState) (k : String) : QState :=
  { kv := adel s.kv k, sets := adel s.sets k }

/-- tagCacheKey: add the cache key to the key-set of every tag (the
string-or-array tag argument is modelled already normalized to a list). -/
def tagCacheKey (s : QState) (key : String) (tags : List String) : QState :=
  tags.foldl (fun st t => sAdd st ("tag:" ++ t) key) s

/-- bustCacheTag: for each tag, read the member keys, delete every member
key, then delete the tag-set itself. -/
def bustCacheTag (s : QState) (tags : List String) : QState :=
  tags.foldl (fun st t =>
    let keys := sMembers st ("tag:" ++ t)
    rdel (keys.foldl (fun st2 k => rdel st2 k) st) ("tag:" ++ t)) s

/-- Options of queryCache (both fields are required on the options object,
but the object itself is optional; a string-or-array tag is modelled already
normalized to a list, under which tagging with no tags is a no-op exactly as
the falsy-tag guard of the source is). -/
structure QueryOptions where
  ttl : Int
  tag : List String

/-- Cache key of queryCache: namespace, optional version and query hash,
joined by colons after dropping the undefined parts. -/
def qCacheKey (key : String) (version : Option String) (h : Sql → String) (q : Sql) : String :=
  String.intercalate ":" (([some key, version, some (h q)]).filterMap (fun x => x))

/-- queryCache run: with ttl 0 bypass the cache entirely; otherwise return
the decoded cached value when one is live (an empty cached array is truthy in
JS and is served as a hit), else execute the query, store the result with the
optional EX ttl, tag the cache key, and return the fresh result.  The third
component records whether the query executor ran. -/
def queryCache (dbq : Sql → List Row) (h : Sql → String) (key : String)
    (version : Option String) (now : Int) (s : QState) (q : Sql)
    (options : Option QueryOptions) : List Row × QState × Bool :=
  if options.map QueryOptions.ttl = some 0 then (dbq q, s, true)
  else
    let cacheKey := qCacheKey key version h q
    match qget s now cacheKey with
    | some cachedData => (cachedData, s, false)
    | none =>
      let result := dbq q
      let s1 := qsetEx s now cacheKey result (options.map QueryOptions.ttl)
      let s2 := match options with
        | some o => tagCacheKey s1 cacheKey o.tag
        | none => s1
      (result, s2, true)

/-- Single-pass reference version of fetch, phrased after the spec's wording
for batch-chunking correctness: the cached entries are read by one multi-get
over all the ids and the lookup collaborator is invoked once on all the
misses; everything else is as in fetch.  It serves only as the unchunked
comparison point of the chunking claim. -/
def fetchUnchunked (cfg : CacheConfig) (db : Nat → Option String) (now : Int) (s : Store)
    (ids : List Nat) : List Entry × Store :=
  if ids.isEmpty then ([], s)
  else
    let cacheResults := (ids.map (fun id => rget s now id)).filterMap (fun x => x)
    let cache := jsFromEntries (cacheResults.map (fun x => (x.id, x)))
    let cutoff := now - cfg.debounceTime * 1000
    let c := classifyLoop cache cutoff (dedupNat ids)
    if c.2.1.isEmpty then (applyAppend cfg.appendFn c.1, s)
    else
      let dbResults := jsFromEntries (lookupRecord db c.2.1)
      let m := missLoop dbResults c.2.2 now cfg.cacheNotFound c.2.1
      let s2 := writeTombstones now cfg.ttl (writeCache now cfg.ttl s m.2.1) m.2.2
      (applyAppend cfg.appendFn (c.1 ++ m.1), s2)

/-! Pointwise classification of the fetch loops. -/

/-- Outcome of the classification loop for one id: the cached entry served as
a hit, when there is one. -/
def hitOf (c : Option Entry) : Option Entry :=
  match c with
  | some e => if e.notFound then none else if e.debounce then none else some e
  | none => none

/-- Outcome of the classification loop for one id: whether the id is a cache
miss (no live entry, or a debounce marker). -/
def isMiss (c : Option Entry) : Bool :=
  match c with
  | some e => if e.notFound then false else e.debounce
  | none => true

/-- Outcome of the classification loop for one id: whether the id is flagged
do-not-cache for this pass. -/
def isDont (cutoff : Int) (c : Option Entry) : Bool :=
  match c with
  | some e => if e.notFound then false
              else if e.debounce then jsGtOpt e.cachedAt cutoff else false
  | none => false

/-- Tombstone write-back scheduled by the miss loop for one id: a pair to
set-NX when the lookup outcome is empty and negative caching is on. -/
def tombstoneFor (G : Nat → Option Entry) (now : Int) (cnf : Bool) (j : Nat) :
    Option (Nat × Entry) :=
  match G j with
  | none => if cnf then some (j, tombstoneEntry j now) else none
  | some _ => none

/-! Association-list and record lemmas. -/

theorem aget_aset {κ β : Type} [DecidableEq κ] (m : List (κ × β)) (k : κ) (v : β) (k' : κ) :
    aget (aset m k v) k' = if k = k' then some v else aget m k' := by
  induction m with
  | nil => simp [aget, aset]
  | cons p rest ih =>
    by_cases hp : p.1 = k
    · by_cases hk : k = k'
      · subst hk
        simp [aset, aget, hp]
      · have hk' : ¬k' = k := fun h => hk h.symm
        have hp' : ¬p.1 = k' := fun h => hk (hp.symm.trans h)
        simp [aset, aget, hp, hk, hk', hp']
    · by_cases hq : p.1 = k'
      · have hk : ¬k = k' := fun h => hp (hq.trans h.symm)
        have hk' : ¬k' = k := fun h => hk h.symm
        simp [aset, aget, hp, hq, hk, hk']
      · simp [aset, aget, hp, hq, ih]

theorem aget_adel {κ β : Type} [DecidableEq κ] (m : List (κ × β)) (k k' : κ) :
    aget (adel m k) k' = if k = k' then none else aget m k' := by
  induction m with
  | nil => simp [aget, adel]
  | cons p rest ih =>
    by_cases hp : p.1 = k
    · by_cases hk : k = k'
      · subst hk
        simp [adel, aget, hp, ih]
      · have hk' : ¬k' = k := fun h => hk h.symm
        have hp' : ¬p.1 = k' := fun h => hk (hp.symm.trans h)
        simp [adel, aget, hp, hk, hk', hp', ih]
    · by_cases hq : p.1 = k'
      · have hk : ¬k = k' := fun h => hp (hq.trans h.symm)
        have hk' : ¬k' = k := fun h => hk h.symm
        simp [adel, aget, hp, hq, hk, hk']
      · simp [adel, aget, hp, hq, ih]

theorem aget_foldl_aset {κ β : Type} [DecidableEq κ] (ps : List (κ × β)) (m : List (κ × β))
    (k : κ) :
    aget (ps.foldl (fun st p => aset st p.1 p.2) m) k =
      match ps.reverse.find? (fun p => p.1 = k) with
      | some p => some p.2
      | none => aget m k := by
  induction ps generalizing m with
  | nil => simp
  | cons p rest ih =>
    simp only [List.foldl_cons, List.reverse_cons, List.find?_append, ih]
    cases hfind : rest.reverse.find? (fun q => decide (q.1 = k)) with
    | some q => simp [hfind]
    | none =>
      simp only [hfind, Option.none_or]
      rw [aget_aset]
      by_cases hp : p.1 = k
      · simp [List.find?, hp]
      · simp [List.find?, hp]

theorem aget_jsFromEntries {κ β : Type} [DecidableEq κ] (ps : List (κ × β)) (k : κ) :
    aget (jsFromEntries ps) k =
      match ps.reverse.find? (fun p => p.1 = k) with
      | some p => some p.2
      | none => none := by
  simpa [jsFromEntries, aget] using aget_foldl_aset ps [] k

theorem aget_jsFromEntries_fn {κ β : Type} [DecidableEq κ] (ps : List (κ × β)) (F : κ → β)
    (hps : ∀ p ∈ ps, p.2 = F p.1) (k : κ) :
    aget (jsFromEntries ps) k = if k ∈ ps.map Prod.fst then some (F k) else none := by
  rw [aget_jsFromEntries]
  cases hfind : ps.reverse.find? (fun p => p.1 = k) with
  | some p =>
    have hmem : p ∈ ps := List.mem_reverse.mp (List.mem_of_find?_eq_some hfind)
    have hkey : p.1 = k := by simpa using List.find?_some hfind
    have hmm : k ∈ ps.map Prod.fst := List.mem_map.mpr ⟨p, hmem, hkey⟩
    simp only [hmm, if_pos]
    rw [hps p hmem, hkey]
  | none =>
    have hno : ∀ p ∈ ps, ¬(p.1 = k) := by
      intro p hp
      have := List.find?_eq_none.mp hfind p (List.mem_reverse.mpr hp)
      simpa using this
    have : k ∉ ps.map Prod.fst := by
      intro hmm
      rcases List.mem_map.mp hmm with ⟨p, hp, hk⟩
      exact hno p hp hk
    simp [this]

/-! De-duplication lemmas. -/

theorem mem_dedupAux (l : List Nat) :
    ∀ (seen : List Nat) (a : Nat), a ∈ dedupAux seen l ↔ a ∈ l ∧ a ∉ seen := by
  induction l with
  | nil => simp [dedupAux]
  | cons x rest ih =>
    intro seen a
    by_cases hx : x ∈ seen
    · simp only [dedupAux, if_pos hx, ih, List.mem_cons]
      constructor
      · rintro ⟨ha, hs⟩
        exact ⟨Or.inr ha, hs⟩
      · rintro ⟨ha | ha, hs⟩
        · exact absurd (ha ▸ hx) hs
        · exact ⟨ha, hs⟩
    · simp only [dedupAux, if_neg hx, List.mem_cons, ih]
      constructor
      · rintro (h | ⟨ha, hs⟩)
        · exact ⟨Or.inl h, h ▸ hx⟩
        · exact ⟨Or.inr ha, fun hs' => hs (by simp [List.mem_cons, hs'])⟩
      · rintro ⟨ha | ha, hs⟩
        · exact Or.inl ha
        · by_cases hax : a = x
          · exact Or.inl hax
          · exact Or.inr ⟨ha, by simp [List.mem_cons, hax, hs]⟩

theorem nodup_dedupAux (l : List Nat) : ∀ seen, (dedupAux seen l).Nodup := by
  induction l with
  | nil => intro seen; simp [dedupAux]
  | cons x rest ih =>
    intro seen
    by_cases hx : x ∈ seen
    · simpa [dedupAux, hx] using ih seen
    · simp only [dedupAux, if_neg hx]
      refine List.nodup_cons.mpr ⟨?_, ih (x :: seen)⟩
      intro hmem
      rcases (mem_dedupAux rest (x :: seen) x).mp hmem with ⟨_, hs⟩
      exact hs (List.mem_cons_self x seen)

theorem mem_dedupNat (l : List Nat) (a : Nat) : a ∈ dedupNat l ↔ a ∈ l := by
  simp [dedupNat, mem_dedupAux]

theorem nodup_dedupNat (l : List Nat) : (dedupNat l).Nodup := nodup_dedupAux l []

/-! Chunking lemmas. -/

theorem chunkListAux_nil {α : Type} (n fuel : Nat) : chunkListAux n fuel ([] : List α) = [] := by
  cases fuel <;> rfl

theorem chunkListAux_fuel {α : Type} (n : Nat) :
    ∀ (fuel fuel' : Nat) (l : List α), l.length ≤ fuel → l.length ≤ fuel' →
      chunkListAux n fuel l = chunkListAux n fuel' l := by
  intro fuel
  induction fuel with
  | zero =>
    intro fuel' l hl _
    have : l = [] := List.eq_nil_of_length_eq_zero (Nat.le_zero.mp hl)
    subst this
    simp [chunkListAux_nil]
  | succ f ih =>
    intro fuel' l hl hl'
    cases l with
    | nil => simp [chunkListAux_nil]
    | cons a rest =>
      cases fuel' with
      | zero => simp at hl'
      | succ f' =>
        by_cases hn : n = 0
        · simp [chunkListAux, hn]
        · simp only [chunkListAux, hn, if_neg, not_false_iff, if_false]
          congr 1
          apply ih
          · have h1 : ((a :: rest).drop n).length = (a :: rest).length - n := by
              simp
            simp only [List.length_cons] at h1 hl ⊢
            omega
          · have h1 : ((a :: rest).drop n).length = (a :: rest).length - n := by
              simp
            simp only [List.length_cons] at h1 hl' ⊢
            omega

theorem chunkList_cons_eq {α : Type} (n : Nat) (hn : n ≠ 0) (l : List α) (hl : l ≠ []) :
    chunkList n l = l.take n :: chunkList n (l.drop n) := by
  cases l with
  | nil => exact absurd rfl hl
  | cons a rest =>
    show chunkListAux n ((a :: rest).length) (a :: rest) = _
    simp only [List.length_cons, chunkListAux, hn, if_neg, not_false_iff, if_false]
    congr 1
    apply chunkListAux_fuel
    · have h1 : ((a :: rest).drop n).length = (a :: rest).length - n := by simp
      simp only [List.length_cons] at h1 ⊢
      omega
    · exact Nat.le_refl _

theorem chunk_hom {α β : Type} (n : Nat) (hn : n ≠ 0) (F : List α → List β)
    (hF : ∀ a b, F (a ++ b) = F a ++ F b) :
    ∀ l, ((chunkList n l).map F).flatten = F l := by
  have hnil : F [] = [] := by
    have h := hF [] []
    simp only [List.append_nil] at h
    have hlen := congrArg List.length h
    simp only [List.length_append] at hlen
    exact List.eq_nil_of_length_eq_zero (by omega)
  intro l
  generalize hlen : l.length = len
  induction len using Nat.strong_induction_on generalizing l with
  | _ len ih =>
    cases l with
    | nil => simp [chunkList, chunkListAux_nil, hnil]
    | cons a rest =>
      rw [chunkList_cons_eq n hn _ (by simp)]
      simp only [List.map_cons, List.flatten_cons]
      have hlt : ((a :: rest).drop n).length < len := by
        subst hlen
        have h1 : ((a :: rest).drop n).length = (a :: rest).length - n := by simp
        simp only [List.length_cons] at h1 ⊢
        omega
      rw [ih _ hlt _ rfl, ← hF, List.take_append_drop]

theorem cacheResultsOf_eq (s : Store) (now : Int) (ids : List Nat) :
    cacheResultsOf s now ids = (ids.map (fun id => rget s now id)).filterMap (fun x => x) := by
  unfold cacheResultsOf
  exact chunk_hom 200 (by decide) _
    (fun a b => by simp [List.map_append, List.filterMap_append]) ids

theorem dbResultsOf_eq (db : Nat → Option String) (misses : List Nat) :
    dbResultsOf db misses = jsFromEntries (lookupRecord db misses) := by
  unfold dbResultsOf
  rw [chunk_hom 10000 (by decide) (lookupRecord db)
    (fun a b => by simp [lookupRecord, List.filterMap_append]) misses]

theorem classifyLoop_spec (cache : List (Nat × Entry)) (cutoff : Int) (F : Nat → Option Entry)
    (l : List Nat) (hF : ∀ id ∈ l, aget cache id = F id) :
    classifyLoop cache cutoff l =
      (l.filterMap (fun id => hitOf (F id)),
       l.filter (fun id => isMiss (F id)),
       l.filter (fun id => isDont cutoff (F id))) := by
  induction l with
  | nil => simp [classifyLoop]
  | cons id rest ih =>
    have hid := hF id (List.mem_cons_self _ _)
    have hrest : ∀ i ∈ rest, aget cache i = F i := fun i hi => hF i (List.mem_cons_of_mem _ hi)
    simp only [classifyLoop, ih hrest, hid, List.filterMap_cons, List.filter_cons]
    cases hc : F id with
    | none => simp [hitOf, isMiss, isDont]
    | some e =>
      by_cases hnf : e.notFound
      · simp [hitOf, isMiss, isDont, hnf]
      · by_cases hdb : e.debounce
        · simp [hitOf, isMiss, isDont, hnf, hdb]
        · simp [hitOf, isMiss, isDont, hnf, hdb]

theorem missLoop_spec (dbResults : List (Nat × Entry)) (dontCache : List Nat) (now : Int)
    (cnf : Bool) (G : Nat → Option Entry) (l : List Nat)
    (hG : ∀ id ∈ l, aget dbResults id = G id) :
    missLoop dbResults dontCache now cnf l =
      (l.filterMap G,
       l.filterMap (fun id =>
         if id ∈ dontCache then none
         else (G id).map (fun r => (id, { r with cachedAt := some now }))),
       l.filterMap (tombstoneFor G now cnf)) := by
  induction l with
  | nil => simp [missLoop]
  | cons id rest ih =>
    have hid := hG id (List.mem_cons_self _ _)
    have hrest : ∀ i ∈ rest, aget dbResults i = G i :=
      fun i hi => hG i (List.mem_cons_of_mem _ hi)
    simp only [missLoop, ih hrest, hid, List.filterMap_cons]
    cases hc : G id with
    | none => cases cnf <;> simp [tombstoneFor, hc]
    | some r => by_cases hdc : id ∈ dontCache <;> simp [hdc, tombstoneFor, hc]

/-! Pointwise effect of the write-back phases. -/

theorem aget_rsetEx (s : Store) (now : Int) (id : Nat) (e : Entry) (ttl : Option Int) (k : Nat) :
    aget (rsetEx s now id e ttl) k =
      if id = k then some (e, ttl.map (fun t => now + t * 1000)) else aget s k := by
  simp [rsetEx, aget_aset]

theorem rget_congr {s s' : Store} {k : Nat} (now : Int) (h : aget s' k = aget s k) :
    rget s' now k = rget s now k := by
  unfold rget
  rw [h]

theorem rget_eq_some_iff (s : Store) (now : Int) (id : Nat) (e : Entry) :
    rget s now id = some e ↔ ∃ exp, aget s id = some (e, exp) ∧ liveAt now exp = true := by
  unfold rget
  cases ha : aget s id with
  | none => simp
  | some pe =>
    cases pe with
    | mk e0 exp =>
      by_cases hl : liveAt now exp
      · simp only [hl, if_pos, Option.some.injEq, Prod.mk.injEq]
        constructor
        · intro he
          exact ⟨exp, ⟨he, rfl⟩, hl⟩
        · rintro ⟨exp1, ⟨he, _⟩, _⟩
          exact he
      · simp only [hl, if_neg, Bool.false_eq_true, not_false_iff, if_false,
          Option.some.injEq, Prod.mk.injEq]
        constructor
        · intro he
          cases he
        · rintro ⟨exp1, ⟨_, hexp⟩, hl1⟩
          exact absurd (hexp ▸ hl1) hl

theorem aget_rexpire_other (s : Store) (now : Int) (id : Nat) (ttl : Int) (k : Nat)
    (hk : id ≠ k) : aget (rexpire s now id ttl) k = aget s k := by
  unfold rexpire
  cases aget s id with
  | none => rfl
  | some pe =>
    cases pe with
    | mk e exp => by_cases hl : liveAt now exp <;> simp [hl, aget_aset, hk]

theorem aget_rsetNX_other (s : Store) (now : Int) (id : Nat) (e : Entry) (k : Nat)
    (hk : id ≠ k) : aget ((rsetNX s now id e).1) k = aget s k := by
  unfold rsetNX
  by_cases h : (rget s now id).isSome <;> simp [h, aget_aset, hk]

theorem aget_writeNotFound_other (now ttl : Int) (st : Store) (p : Nat × Entry) (k : Nat)
    (hk : p.1 ≠ k) : aget (writeNotFound now ttl st p) k = aget st k := by
  unfold writeNotFound
  rw [aget_rexpire_other _ _ _ _ _ hk, aget_rsetNX_other _ _ _ _ _ hk]

theorem aget_writeNotFound_self_live (now ttl : Int) (st : Store) (p : Nat × Entry) (e0 : Entry)
    (h : rget st now p.1 = some e0) :
    aget (writeNotFound now ttl st p) p.1 = some (e0, some (now + ttl * 1000)) := by
  obtain ⟨exp, ha, hl⟩ := (rget_eq_some_iff st now p.1 e0).mp h
  unfold writeNotFound rsetNX
  simp only [h, Option.isSome_some, if_pos]
  unfold rexpire
  rw [ha]
  simp [hl, aget_aset]

theorem aget_writeNotFound_self_dead (now ttl : Int) (st : Store) (p : Nat × Entry)
    (h : rget st now p.1 = none) :
    aget (writeNotFound now ttl st p) p.1 = some (p.2, some (now + ttl * 1000)) := by
  unfold writeNotFound rsetNX
  simp only [h, Option.isSome_none, Bool.false_eq_true, if_neg, not_false_iff, if_false]
  unfold rexpire
  rw [aget_aset]
  simp only [if_pos rfl]
  simp [liveAt, aget_aset]

theorem aget_writeCache_notMem (now ttl : Int) (ps : List (Nat × Entry)) (s : Store) (k : Nat)
    (hk : k ∉ ps.map Prod.fst) : aget (writeCache now ttl s ps) k = aget s k := by
  induction ps generalizing s with
  | nil => rfl
  | cons p rest ih =>
    simp only [List.map_cons, List.mem_cons, not_or] at hk
    show aget (writeCache now ttl (rsetEx s now p.1 p.2 (some ttl)) rest) k = aget s k
    have hp : ¬p.1 = k := fun h => hk.1 h.symm
    rw [ih _ hk.2, aget_rsetEx, if_neg hp]

theorem aget_writeCache_mem (now ttl : Int) (ps : List (Nat × Entry)) (s : Store) (k : Nat)
    (e : Entry) (hmem : (k, e) ∈ ps) (hnd : (ps.map Prod.fst).Nodup) :
    aget (writeCache now ttl s ps) k = some (e, some (now + ttl * 1000)) := by
  induction ps generalizing s with
  | nil => simp at hmem
  | cons p rest ih =>
    simp only [List.map_cons, List.nodup_cons] at hnd
    rcases List.mem_cons.mp hmem with heq | hmem'
    · subst heq
      show aget (writeCache now ttl (rsetEx s now k e (some ttl)) rest) k = _
      rw [aget_writeCache_notMem _ _ _ _ _ hnd.1, aget_rsetEx]
      simp
    · show aget (writeCache now ttl (rsetEx s now p.1 p.2 (some ttl)) rest) k = _
      exact ih _ hmem' hnd.2

theorem aget_writeTombstones_notMem (now ttl : Int) (ps : List (Nat × Entry)) (s : Store)
    (k : Nat) (hk : k ∉ ps.map Prod.fst) : aget (writeTombstones now ttl s ps) k = aget s k := by
  induction ps generalizing s with
  | nil => rfl
  | cons p rest ih =>
    simp only [List.map_cons, List.mem_cons, not_or] at hk
    show aget (writeTombstones now ttl (writeNotFound now ttl s p) rest) k = aget s k
    rw [ih _ hk.2, aget_writeNotFound_other]
    exact fun h => hk.1 h.symm

theorem aget_writeTombstones_mem_dead (now ttl : Int) (ps : List (Nat × Entry)) (s : Store)
    (k : Nat) (e : Entry) (hmem : (k, e) ∈ ps) (hnd : (ps.map Prod.fst).Nodup)
    (hdead : rget s now k = none) :
    aget (writeTombstones now ttl s ps) k = some (e, some (now + ttl * 1000)) := by
  induction ps generalizing s with
  | nil => simp at hmem
  | cons p rest ih =>
    simp only [List.map_cons, List.nodup_cons] at hnd
    rcases List.mem_cons.mp hmem with heq | hmem'
    · subst heq
      show aget (writeTombstones now ttl (writeNotFound now ttl s (k, e)) rest) k = _
      rw [aget_writeTombstones_notMem _ _ _ _ _ hnd.1]
      exact aget_writeNotFound_self_dead now ttl s (k, e) hdead
    · have hk : k ≠ p.1 := by
        intro h
        exact hnd.1 (h ▸ List.mem_map.mpr ⟨(k, e), hmem', h ▸ rfl⟩)
      show aget (writeTombstones now ttl (writeNotFound now ttl s p) rest) k = _
      refine ih _ hmem' hnd.2 ?_
      rw [rget_congr now (aget_writeNotFound_other now ttl s p k (fun h => hk h.symm))]
      exact hdead

/-! Key lists of the scheduled write-backs. -/

theorem map_fst_filterMap_keyed {α β γ : Type} (l : List α) (F : α → Option β)
    (mk : α → β → γ) :
    (l.filterMap (fun a => (F a).map (fun v => (a, mk a v)))).map
        (Prod.fst : α × γ → α) =
      l.filter (fun a => (F a).isSome) := by
  induction l with
  | nil => simp
  | cons a rest ih =>
    cases hf : F a <;> simp [List.filterMap_cons, List.filter_cons, hf, ih]

theorem map_fst_filterMap_none {α β γ : Type} (l : List α) (F : α → Option β) (mk : α → γ) :
    (l.filterMap (fun a =>
        match F a with
        | none => some (a, mk a)
        | some _ => none)).map (Prod.fst : α × γ → α) =
      l.filter (fun a => (F a).isNone) := by
  induction l with
  | nil => simp
  | cons a rest ih =>
    cases hf : F a <;> simp [List.filterMap_cons, List.filter_cons, hf, ih]

theorem map_fst_filterMap_tomb (l : List Nat) (G : Nat → Option Entry) (now : Int) :
    (l.filterMap (tombstoneFor G now true)).map Prod.fst =
      l.filter (fun j => (G j).isNone) := by
  induction l with
  | nil => simp
  | cons a rest ih =>
    cases hg : G a <;>
      simp [List.filterMap_cons, List.filter_cons, tombstoneFor, hg, ih]

/-! Permutation lemma: a filterMap whose per-element outcome is split between
two disjoint alternatives is a permutation of the two filterMaps appended. -/

theorem perm_filterMap_split {α β : Type} (l : List α) (f g h : α → Option β)
    (H : ∀ a ∈ l, (h a = f a ∧ g a = none) ∨ (f a = none ∧ h a = g a)) :
    (l.filterMap h).Perm (l.filterMap f ++ l.filterMap g) := by
  induction l with
  | nil => simp
  | cons a rest ih =>
    have ha := H a (List.mem_cons_self _ _)
    have hrest : ∀ x ∈ rest, (h x = f x ∧ g x = none) ∨ (f x = none ∧ h x = g x) :=
      fun x hx => H x (List.mem_cons_of_mem _ hx)
    rcases ha with ⟨hf, hg⟩ | ⟨hf, hg⟩
    · cases hfa : f a with
      | none =>
        simp only [List.filterMap_cons, hf, hfa, hg]
        exact ih hrest
      | some b =>
        simp only [List.filterMap_cons, hf, hfa, hg, List.cons_append]
        exact (ih hrest).cons b
    · cases hga : g a with
      | none =>
        simp only [List.filterMap_cons, hg, hga, hf]
        exact ih hrest
      | some b =>
        simp only [List.filterMap_cons, hg, hga, hf]
        exact ((ih hrest).cons b).trans List.perm_middle.symm

/-! Further association-list fold lemmas. -/

theorem aget_foldl_aset_fn {κ β : Type} [DecidableEq κ] (ps : List (κ × β)) (m : List (κ × β))
    (F : κ → β) (hps : ∀ p ∈ ps, p.2 = F p.1) (k : κ) :
    aget (ps.foldl (fun st p => aset st p.1 p.2) m) k =
      if k ∈ ps.map Prod.fst then some (F k) else aget m k := by
  rw [aget_foldl_aset]
  cases hfind : ps.reverse.find? (fun p => p.1 = k) with
  | some p =>
    have hmem : p ∈ ps := List.mem_reverse.mp (List.mem_of_find?_eq_some hfind)
    have hkey : p.1 = k := by simpa using List.find?_some hfind
    have hmm : k ∈ ps.map Prod.fst := List.mem_map.mpr ⟨p, hmem, hkey⟩
    simp only [hmm, if_pos]
    rw [hps p hmem, hkey]
  | none =>
    have hno : ∀ p ∈ ps, ¬(p.1 = k) := fun p hp => by
      simpa using List.find?_eq_none.mp hfind p (List.mem_reverse.mpr hp)
    have hnm : k ∉ ps.map Prod.fst := fun hmm => by
      rcases List.mem_map.mp hmm with ⟨p, hp, hk⟩
      exact hno p hp hk
    simp [hnm]

theorem aget_foldl_adel {κ β : Type} [DecidableEq κ] (l : List κ) (m : List (κ × β)) (k : κ) :
    aget (l.foldl (fun st k2 => adel st k2) m) k = if k ∈ l then none else aget m k := by
  induction l generalizing m with
  | nil => simp
  | cons x rest ih =>
    simp only [List.foldl_cons]
    rw [ih]
    by_cases hk : k ∈ rest
    · simp [hk]
    · by_cases hx : x = k
      · simp [hk, hx, aget_adel, List.mem_cons]
      · have hx' : ¬k = x := fun h => hx h.symm
        simp [hk, hx, hx', aget_adel, List.mem_cons]

/-! Lookup-record lemmas. -/

theorem lookupRecord_fn (db : Nat → Option String) (l : List Nat) :
    ∀ p ∈ lookupRecord db l, p.2 = entityOf p.1 ((db p.1).getD "") := by
  intro p hp
  rcases List.mem_filterMap.mp hp with ⟨i, _, hpi⟩
  cases hdb : db i with
  | none => rw [hdb] at hpi; simp at hpi
  | some v =>
    rw [hdb] at hpi
    simp only [Option.map_some'] at hpi
    injection hpi with h
    subst h
    simp [hdb]

theorem map_fst_lookupRecord (db : Nat → Option String) (l : List Nat) :
    (lookupRecord db l).map Prod.fst = l.filter (fun a => (db a).isSome) :=
  map_fst_filterMap_keyed l db (fun i v => entityOf i v)

theorem aget_jsFromEntries_lookupRecord (db : Nat → Option String) (l : List Nat) (id : Nat)
    (hid : id ∈ l) :
    aget (jsFromEntries (lookupRecord db l)) id = (db id).map (fun v => entityOf id v) := by
  rw [aget_jsFromEntries_fn (lookupRecord db l) (fun k => entityOf k ((db k).getD ""))
    (lookupRecord_fn db l) id, map_fst_lookupRecord]
  cases hdb : db id with
  | none => simp [List.mem_filter, hdb]
  | some v => simp [List.mem_filter, hid, hdb]

theorem aget_dbResultsOf (db : Nat → Option String) (misses : List Nat) (id : Nat)
    (hid : id ∈ misses) :
    aget (dbResultsOf db misses) id = (db id).map (fun v => entityOf id v) := by
  rw [dbResultsOf_eq]
  exact aget_jsFromEntries_lookupRecord db misses id hid

/-! Cache-table lemma: under well-formed stored entries, the record built by
fetch from the multi-get results looks up to the live store entry. -/

theorem cacheTable_lookup (s : Store) (now : Int) (ids : List Nat)
    (hwf : ∀ i ∈ ids, ∀ p : Entry × Option Int, aget s i = some p → p.1.id = i)
    (id : Nat) (hid : id ∈ ids) :
    aget (jsFromEntries ((cacheResultsOf s now ids).map (fun x => (x.id, x)))) id =
      rget s now id := by
  rw [cacheResultsOf_eq]
  have hwf' : ∀ i ∈ ids, ∀ e, rget s now i = some e → e.id = i := by
    intro i hi e he
    obtain ⟨exp, ha, _⟩ := (rget_eq_some_iff s now i e).mp he
    exact hwf i hi _ ha
  have hmemCR : ∀ x : Entry,
      (x ∈ (ids.map (fun i => rget s now i)).filterMap (fun x => x) ↔
        ∃ i ∈ ids, rget s now i = some x) := by
    intro x
    constructor
    · intro hx
      rcases List.mem_filterMap.mp hx with ⟨a, ha, hax⟩
      rcases List.mem_map.mp ha with ⟨i, hi, hia⟩
      exact ⟨i, hi, by rw [hia]; exact hax⟩
    · rintro ⟨i, hi, hix⟩
      exact List.mem_filterMap.mpr ⟨some x, List.mem_map.mpr ⟨i, hi, hix⟩, rfl⟩
  have hfn : ∀ p ∈ ((ids.map (fun i => rget s now i)).filterMap (fun x => x)).map
      (fun x => (x.id, x)), p.2 = (fun k => (rget s now k).getD (debounceEntry k)) p.1 := by
    intro p hp
    rcases List.mem_map.mp hp with ⟨x, hx, hpx⟩
    rcases (hmemCR x).mp hx with ⟨i, hi, hxi⟩
    have hxid : x.id = i := hwf' i hi x hxi
    rw [← hpx]
    simp [hxid, hxi]
  rw [aget_jsFromEntries_fn _ (fun k => (rget s now k).getD (debounceEntry k)) hfn id]
  cases hr : rget s now id with
  | some e =>
    have hkm : id ∈ (((ids.map (fun i => rget s now i)).filterMap (fun x => x)).map
        (fun x => (x.id, x))).map Prod.fst := by
      apply List.mem_map.mpr
      refine ⟨(e.id, e), List.mem_map.mpr ⟨e, (hmemCR e).mpr ⟨id, hid, hr⟩, rfl⟩, ?_⟩
      simp [hwf' id hid e hr]
    rw [if_pos hkm]
    simp
  | none =>
    have hkm : id ∉ (((ids.map (fun i => rget s now i)).filterMap (fun x => x)).map
        (fun x => (x.id, x))).map Prod.fst := by
      intro hmm
      rcases List.mem_map.mp hmm with ⟨p, hp, hpk⟩
      rcases List.mem_map.mp hp with ⟨x, hx, hpx⟩
      rcases (hmemCR x).mp hx with ⟨i, hi, hxi⟩
      have hxid : x.id = i := hwf' i hi x hxi
      rw [← hpx] at hpk
      simp only at hpk
      rw [hpk] at hxid
      rw [← hxid] at hxi
      rw [hxi] at hr
      cases hr
    rw [if_neg hkm]

/-! Counter-store lemmas. -/

theorem cGet_eq_some_iff (s : CStore) (now : Int) (id : Nat) (v : Int) :
    cGet s now id = some v ↔ ∃ exp, aget s id = some (v, exp) ∧ liveAt now exp = true := by
  unfold cGet
  cases ha : aget s id with
  | none => simp
  | some pe =>
    cases pe with
    | mk v0 exp =>
      by_cases hl : liveAt now exp
      · simp only [hl, if_pos, Option.some.injEq, Prod.mk.injEq]
        constructor
        · intro he
          exact ⟨exp, ⟨he, rfl⟩, hl⟩
        · rintro ⟨exp1, ⟨he, _⟩, _⟩
          exact he
      · simp only [hl, if_neg, Bool.false_eq_true, not_false_iff, if_false,
          Option.some.injEq, Prod.mk.injEq]
        constructor
        · intro he
          cases he
        · rintro ⟨exp1, ⟨_, hexp⟩, hl1⟩
          exact absurd (hexp ▸ hl1) hl

/-! Query-cache state lemmas. -/

theorem kv_tagCacheKey : ∀ (tags : List String) (s : QState) (key : String),
    (tagCacheKey s key tags).kv = s.kv := by
  intro tags
  induction tags with
  | nil => intro s key; rfl
  | cons t rest ih =>
    intro s key
    show (tagCacheKey (sAdd s ("tag:" ++ t) key) key rest).kv = s.kv
    rw [ih]
    exact rfl

theorem qget_eq_of_kv {s s' : QState} (h : s'.kv = s.kv) (now : Int) (k : String) :
    qget s' now k = qget s now k := by
  unfold qget
  rw [h]

theorem kv_foldl_rdel : ∀ (l : List String) (s : QState),
    (l.foldl (fun st k => rdel st k) s).kv = l.foldl (fun m k => adel m k) s.kv := by
  intro l
  induction l with
  | nil => intro s; rfl
  | cons x rest ih =>
    intro s
    simp only [List.foldl_cons]
    rw [ih]
    rfl

theorem sets_foldl_rdel : ∀ (l : List String) (s : QState),
    (l.foldl (fun st k => rdel st k) s).sets = l.foldl (fun m k => adel m k) s.sets := by
  intro l
  induction l with
  | nil => intro s; rfl
  | cons x rest ih =>
    intro s
    simp only [List.foldl_cons]
    rw [ih]
    rfl

theorem rget_of_aget_live {s : Store} {i : Nat} {e : Entry} {exp : Option Int} (now : Int)
    (h : aget s i = some (e, exp)) (hl : liveAt now exp = true) : rget s now i = some e := by
  unfold rget
  rw [h]
  simp [hl]

/-- Pointwise effect of fetch's write-back phase on the store, for a
duplicate-free miss list M and a pointwise lookup outcome G: keys outside M
are untouched, a found miss stores its entity with a fresh cachedAt and the
ttl expiry, and an absent miss (whose key held no live value) stores a
tombstone with the ttl expiry. -/
theorem writeback_state (now ttl : Int) (s : Store) (M : List Nat) (G : Nat → Option Entry)
    (hnd : M.Nodup) :
    (∀ i, i ∉ M →
      aget (writeTombstones now ttl (writeCache now ttl s
          (M.filterMap (fun j => (G j).map (fun r => (j, { r with cachedAt := some now })))))
        (M.filterMap (tombstoneFor G now true))) i = aget s i) ∧
    (∀ i ∈ M, ∀ r, G i = some r →
      aget (writeTombstones now ttl (writeCache now ttl s
          (M.filterMap (fun j => (G j).map (fun r => (j, { r with cachedAt := some now })))))
        (M.filterMap (tombstoneFor G now true))) i =
        some ({ r with cachedAt := some now }, some (now + ttl * 1000))) ∧
    (∀ i ∈ M, G i = none → rget s now i = none →
      aget (writeTombstones now ttl (writeCache now ttl s
          (M.filterMap (fun j => (G j).map (fun r => (j, { r with cachedAt := some now })))))
        (M.filterMap (tombstoneFor G now true))) i =
        some (tombstoneEntry i now, some (now + ttl * 1000))) := by
  have hkC : (M.filterMap (fun j => (G j).map
      (fun r => (j, { r with cachedAt := some now })))).map Prod.fst =
      M.filter (fun j => (G j).isSome) :=
    map_fst_filterMap_keyed M G (fun j r => { r with cachedAt := some now })
  have hkN : (M.filterMap (tombstoneFor G now true)).map Prod.fst =
      M.filter (fun j => (G j).isNone) := map_fst_filterMap_tomb M G now
  have hndC : ((M.filterMap (fun j => (G j).map
      (fun r => (j, { r with cachedAt := some now })))).map Prod.fst).Nodup := by
    rw [hkC]
    exact hnd.filter _
  have hndN : ((M.filterMap (tombstoneFor G now true)).map Prod.fst).Nodup := by
    rw [hkN]
    exact hnd.filter _
  refine ⟨?_, ?_, ?_⟩
  · intro i hi
    have hiC : i ∉ (M.filterMap (fun j => (G j).map
        (fun r => (j, { r with cachedAt := some now })))).map Prod.fst := by
      rw [hkC]
      intro hin
      exact hi (List.mem_filter.mp hin).1
    have hiN : i ∉ (M.filterMap (tombstoneFor G now true)).map Prod.fst := by
      rw [hkN]
      intro hin
      exact hi (List.mem_filter.mp hin).1
    rw [aget_writeTombstones_notMem _ _ _ _ _ hiN, aget_writeCache_notMem _ _ _ _ _ hiC]
  · intro i hi r hG
    have hmemC : (i, { r with cachedAt := some now }) ∈ M.filterMap (fun j => (G j).map
        (fun r => (j, { r with cachedAt := some now }))) :=
      List.mem_filterMap.mpr ⟨i, hi, by rw [hG]; rfl⟩
    have hiN : i ∉ (M.filterMap (tombstoneFor G now true)).map Prod.fst := by
      rw [hkN]
      intro hin
      have h2 := (List.mem_filter.mp hin).2
      rw [hG] at h2
      simp at h2
    rw [aget_writeTombstones_notMem _ _ _ _ _ hiN]
    exact aget_writeCache_mem _ _ _ _ _ _ hmemC hndC
  · intro i hi hG hdead
    have hmemN : (i, tombstoneEntry i now) ∈ M.filterMap (tombstoneFor G now true) :=
      List.mem_filterMap.mpr ⟨i, hi, by simp [tombstoneFor, hG]⟩
    have hiC : i ∉ (M.filterMap (fun j => (G j).map
        (fun r => (j, { r with cachedAt := some now })))).map Prod.fst := by
      rw [hkC]
      intro hin
      have h2 := (List.mem_filter.mp hin).2
      rw [hG] at h2
      simp at h2
    have hdead2 : rget (writeCache now ttl s
        (M.filterMap (fun j => (G j).map (fun r => (j, { r with cachedAt := some now })))))
        now i = none := by
      rw [rget_congr now (aget_writeCache_notMem _ _ _ _ _ hiC)]
      exact hdead
    exact aget_writeTombstones_mem_dead _ _ _ _ _ _ hmemN hndN hdead2

/-! Single-id fetch characterizations. -/

theorem fetch_single_absent (cfg : CacheConfig) (db : Nat → Option String) (now : Int)
    (s : Store) (X : Nat) (hdb : db X = none) (hmiss : rget s now X = none)
    (haf : cfg.appendFn = none) :
    fetch cfg db now s [X] =
      ([], if cfg.cacheNotFound then writeNotFound now cfg.ttl s (X, tombstoneEntry X now)
           else s,
       [[X]]) := by
  have hcr : cacheResultsOf s now [X] = [] := by
    rw [cacheResultsOf_eq]
    simp [hmiss]
  have hdedup : dedupNat [X] = [X] := by
    simp [dedupNat, dedupAux]
  have hchunk : chunkList 10000 [X] = [[X]] := by
    rw [chunkList_cons_eq 10000 (by decide) _ (by simp),
      List.take_of_length_le (by simp), List.drop_eq_nil_of_le (by simp)]
    rfl
  have hdbr : dbResultsOf db [X] = [] := by
    rw [dbResultsOf_eq]
    simp [lookupRecord, hdb, jsFromEntries]
  cases hcnf : cfg.cacheNotFound with
  | false =>
    simp only [fetch, hcr, hdedup, hdbr, hchunk, haf, hcnf]
    simp [hdbr, hchunk, jsFromEntries, classifyLoop, aget, missLoop, writeTombstones,
      writeCache, applyAppend]
  | true =>
    simp only [fetch, hcr, hdedup, hdbr, hchunk, haf, hcnf]
    simp [hdbr, hchunk, jsFromEntries, classifyLoop, aget, missLoop, writeTombstones,
      writeCache, applyAppend]

theorem fetch_single_tombstone (cfg : CacheConfig) (db : Nat → Option String) (now : Int)
    (s : Store) (X : Nat) (e : Entry) (he : rget s now X = some e) (hnf : e.notFound = true)
    (hid : e.id = X) (haf : cfg.appendFn = none) :
    fetch cfg db now s [X] = ([], s, []) := by
  have hcr : cacheResultsOf s now [X] = [e] := by
    rw [cacheResultsOf_eq]
    simp [he]
  have hdedup : dedupNat [X] = [X] := by
    simp [dedupNat, dedupAux]
  simp only [fetch, hcr, hdedup, haf]
  simp [jsFromEntries, aset, classifyLoop, aget, hid, hnf, applyAppend]

/-! Claim theorems. -/

/-- C10: the object view's fetch returns exactly the array view's fetch
result re-keyed as a record by the stringified identifier field, and the
object view's bust and refresh are the array view's bust and refresh,
unchanged. -/
theorem C10_object_view_rekeys_array_view (cfg : CacheConfig) (db : Nat → Option String) :
    (∀ (now : Int) (s : Store) (ids : List Nat),
      (createCachedObject cfg db).fetch now s ids =
        (jsFromEntries (((createCachedArray cfg db).fetch now s ids).1.map
            (fun x => (toString x.id, x))),
         ((createCachedArray cfg db).fetch now s ids).2.1,
         ((createCachedArray cfg db).fetch now s ids).2.2)) ∧
    (createCachedObject cfg db).bust = (createCachedArray cfg db).bust ∧
    (createCachedObject cfg db).refresh = (createCachedArray cfg db).refresh :=
  ⟨fun _ _ _ => rfl, rfl, rfl⟩

/-- C1 (evaluation of the code at the failing input): after bust([1]) at time
0 with a 10-second debounce window, a fetch([1]) at time 1000 — well inside
the window — does invoke the lookup collaborator (one batch [1]), but,
contrary to the claim, it DOES write a cache entry for 1: the bust marker
carries no cachedAt, the JS comparison undefined > cutoff is false, so the
do-not-cache flag is never set and the freshly fetched value with the
configured ttl replaces the debounce marker.  A fetch after the window (at
time 11000) also writes the entry, as the claim says. -/
theorem C1_debounce_suppression_dead :
    let cfg : CacheConfig := ⟨30, 10, true, none⟩
    let db : Nat → Option String := fun i => if i = 1 then some "A" else none
    let s1 := bust cfg 0 [] [1]
    let r := fetch cfg db 1000 s1 [1]
    s1 = [(1, (debounceEntry 1, some 10000))] ∧
    r.2.2 = [[1]] ∧
    r.1 = [entityOf 1 "A"] ∧
    rget r.2.1 1000 1 = some { entityOf 1 "A" with cachedAt := some 1000 } ∧
    rget (fetch cfg db 11000 s1 [1]).2.1 11000 1 =
      some { entityOf 1 "A" with cachedAt := some 11000 } := by
  decide

/-- C5: the tombstone write-back step of fetch (set-if-not-exists followed by
an unconditional expire) issued against a key that concurrently holds a live
entry leaves that entry's value unchanged but resets its expiry to the
configured ttl; the set-if-not-exists itself reports failure. -/
theorem C5_tombstone_expire_resets_ttl (now ttl : Int) (s : Store) (k : Nat) (e e0 : Entry)
    (hlive : rget s now k = some e0) :
    aget (writeNotFound now ttl s (k, e)) k = some (e0, some (now + ttl * 1000)) ∧
    (rsetNX s now k e).2 = false := by
  refine ⟨aget_writeNotFound_self_live now ttl s (k, e) e0 hlive, ?_⟩
  simp [rsetNX, hlive]

/-- Witness for C5 at a concrete store holding a positive entry for key 7. -/
theorem C5_witness :
    rget [(7, (entityOf 7 "B", none))] 0 7 = some (entityOf 7 "B") ∧
    (aget (writeNotFound 0 60 [(7, (entityOf 7 "B", none))] (7, tombstoneEntry 7 0)) 7 =
        some (entityOf 7 "B", some (0 + 60 * 1000)) ∧
      (rsetNX [(7, (entityOf 7 "B", none))] 0 7 (tombstoneEntry 7 0)).2 = false) :=
  ⟨by decide,
   C5_tombstone_expire_resets_ttl 0 60 [(7, (entityOf 7 "B", none))] 7
     (tombstoneEntry 7 0) (entityOf 7 "B") (by decide)⟩

/-- C8: fetch is independent of the internal 200/10000 chunking — its result
list and its updated store coincide, for every input, with those of the
single-pass unchunked version. -/
theorem C8_fetch_chunking_invariant (cfg : CacheConfig) (db : Nat → Option String)
    (now : Int) (s : Store) (ids : List Nat) :
    (fetch cfg db now s ids).1 = (fetchUnchunked cfg db now s ids).1 ∧
    (fetch cfg db now s ids).2.1 = (fetchUnchunked cfg db now s ids).2 := by
  by_cases hids : ids.isEmpty = true
  · simp [fetch, fetchUnchunked, hids]
  · have hids' : ids.isEmpty = false := by
      cases h : ids.isEmpty
      · rfl
      · exact absurd h hids
    simp only [fetch, fetchUnchunked, hids', Bool.false_eq_true, if_false,
      cacheResultsOf_eq, dbResultsOf_eq]
    constructor <;> (split <;> rfl)

/-- C4: every cache entry written by refresh for an id returned by the lookup
collaborator is stored with no expiry at all — the EX ttl options object is
the second argument of Array.prototype.map, not of the set call — unlike the
entries written back by fetch, which carry the configured ttl. -/
theorem C4_refresh_writes_without_ttl (cfg : CacheConfig) (db : Nat → Option String)
    (now : Int) (s : Store) (ids : List Nat) (id : Nat) (v : String)
    (hmem : id ∈ ids) (hdb : db id = some v) :
    aget (refresh cfg db now s ids) id =
      some ({ entityOf id v with cachedAt := some now }, none) := by
  have hrec : aget (jsFromEntries (lookupRecord db ids)) id = some (entityOf id v) := by
    rw [aget_jsFromEntries_lookupRecord db ids id hmem, hdb]
    rfl
  have hnotRem :
      id ∉ ids.filter (fun i => (aget (jsFromEntries (lookupRecord db ids)) i).isNone) := by
    intro hin
    have h2 := (List.mem_filter.mp hin).2
    rw [hrec] at h2
    simp at h2
  show aget ((ids.filter (fun i => (aget (jsFromEntries (lookupRecord db ids)) i).isNone)).foldl
      (fun st i => adel st i)
      ((lookupRecord db ids).foldl
        (fun st p => aset st p.1 ({ p.2 with cachedAt := some now }, none)) s)) id = _
  rw [aget_foldl_adel, if_neg hnotRem]
  have hmap : (lookupRecord db ids).foldl
      (fun st p => aset st p.1 ({ p.2 with cachedAt := some now }, none)) s
      = ((lookupRecord db ids).map (fun p => (p.1, ({ p.2 with cachedAt := some now },
          (none : Option Int))))).foldl (fun st p => aset st p.1 p.2) s := by
    rw [List.foldl_map]
  rw [hmap, aget_foldl_aset_fn _ s
    (fun k => ({ entityOf k ((db k).getD "") with cachedAt := some now }, none)) ?hfn id]
  case hfn =>
    intro p hp
    rcases List.mem_map.mp hp with ⟨q, hq, hpq⟩
    have hq2 := lookupRecord_fn db ids q hq
    rw [← hpq]
    simp [hq2]
  have hkeys : (((lookupRecord db ids).map (fun p => (p.1, ({ p.2 with cachedAt := some now },
      (none : Option Int))))).map Prod.fst) = (lookupRecord db ids).map Prod.fst := by
    simp [List.map_map]
  rw [hkeys, map_fst_lookupRecord]
  have hmem2 : id ∈ ids.filter (fun a => (db a).isSome) :=
    List.mem_filter.mpr ⟨hmem, by simp [hdb]⟩
  rw [if_pos hmem2]
  simp [hdb]

/-- Witness for C4: refresh of ids [1, 2] with entity 1 present stores entry
1 with a fresh cachedAt and no expiry. -/
theorem C4_witness :
    (1 ∈ [1, 2] ∧ (fun i => if i = 1 then some "A" else none) 1 = some "A") ∧
    aget (refresh ⟨30, 10, true, none⟩ (fun i => if i = 1 then some "A" else none) 5 [] [1, 2]) 1 =
      some ({ entityOf 1 "A" with cachedAt := some 5 }, none) :=
  ⟨⟨by decide, by decide⟩,
   C4_refresh_writes_without_ttl ⟨30, 10, true, none⟩
     (fun i => if i = 1 then some "A" else none) 5 [] [1, 2] 1 "A" (by decide) (by decide)⟩

/-- C9: incrementBy reads the current value via get — populating the cache
with the fetched-or-default value on a miss — then increments the stored
integer by the amount, and returns previous plus amount, where previous is
the value get returned. -/
theorem C9_counter_increment (fetchFn : Option (Nat → Int)) (ttl now : Int) (s : CStore)
    (id : Nat) (amount : Int) (httl : 0 < ttl) :
    (cachedCounterIncrementBy fetchFn ttl now s id amount).1 =
        (cachedCounterGet fetchFn ttl now s id).1 + amount ∧
    cGet (cachedCounterIncrementBy fetchFn ttl now s id amount).2 now id =
      some ((cGet (cachedCounterGet fetchFn ttl now s id).2 now id).getD 0 + amount) ∧
    ((cGet s now id).getD 0 = 0 →
      cGet (cachedCounterGet fetchFn ttl now s id).2 now id =
        some (match fetchFn with | some f => f id | none => 0)) := by
  by_cases hcc : (cGet s now id).getD 0 = 0
  · have hget : cachedCounterGet fetchFn ttl now s id =
        ((match fetchFn with | some f => f id | none => 0),
         cSetEx s now id (match fetchFn with | some f => f id | none => 0) (some ttl)) := by
      unfold cachedCounterGet
      simp [hcc]
    have hlive : liveAt now (some (now + ttl * 1000)) = true := by
      simp only [liveAt, decide_eq_true_eq]
      omega
    have hcg : ∀ c : Int, cGet (cSetEx s now id c (some ttl)) now id = some c := by
      intro c
      unfold cGet cSetEx
      rw [aget_aset]
      simp [hlive]
    have hag : ∀ c : Int, aget (cSetEx s now id c (some ttl)) id =
        some (c, some (now + ttl * 1000)) := by
      intro c
      unfold cSetEx
      rw [aget_aset]
      simp
    have hincr : ∀ c : Int, cIncrBy (cSetEx s now id c (some ttl)) now id amount =
        aset (cSetEx s now id c (some ttl)) id (c + amount, some (now + ttl * 1000)) := by
      intro c
      unfold cIncrBy
      rw [hag c]
      simp [hlive]
    refine ⟨by unfold cachedCounterIncrementBy; rw [hget], ?_, ?_⟩
    · unfold cachedCounterIncrementBy
      rw [hget]
      simp only
      rw [hincr, hcg]
      unfold cGet
      rw [aget_aset]
      simp [hlive]
    · intro _
      rw [hget]
      exact hcg _
  · have hs : ∃ v, cGet s now id = some v := by
      cases h : cGet s now id with
      | none => rw [h] at hcc; simp at hcc
      | some v => exact ⟨v, rfl⟩
    obtain ⟨v, hv⟩ := hs
    have hvne : ¬v = 0 := fun h => hcc (by rw [hv, h]; rfl)
    have hget : cachedCounterGet fetchFn ttl now s id = (v, s) := by
      unfold cachedCounterGet
      rw [hv]
      simp [hvne]
    obtain ⟨exp, ha, hl⟩ := (cGet_eq_some_iff s now id v).mp hv
    have hincr : cIncrBy s now id amount = aset s id (v + amount, exp) := by
      unfold cIncrBy
      rw [ha]
      simp [hl]
    refine ⟨by unfold cachedCounterIncrementBy; rw [hget], ?_, ?_⟩
    · unfold cachedCounterIncrementBy
      rw [hget]
      simp only
      rw [hincr]
      unfold cGet
      rw [aget_aset]
      simp only [if_pos rfl, hl, if_true, Option.getD_some, Option.some.injEq]
      rw [ha]
      simp [hl]
    · intro h
      exact absurd h hcc

/-- Witness for C9 at a concrete counter store, fetch collaborator and ttl. -/
theorem C9_witness :
    (0 : Int) < 3600 ∧
    ((cachedCounterIncrementBy (some (fun _ => 5)) 3600 0 [] 7 3).1 =
        (cachedCounterGet (some (fun _ => 5)) 3600 0 [] 7).1 + 3 ∧
      cGet (cachedCounterIncrementBy (some (fun _ => 5)) 3600 0 [] 7 3).2 0 7 =
        some ((cGet (cachedCounterGet (some (fun _ => 5)) 3600 0 [] 7).2 0 7).getD 0 + 3) ∧
      ((cGet ([] : CStore) 0 7).getD 0 = 0 →
        cGet (cachedCounterGet (some (fun _ => 5)) 3600 0 [] 7).2 0 7 =
          some (match some (fun _ : Nat => (5 : Int)) with
            | some f => f 7
            | none => 0))) :=
  ⟨by decide, C9_counter_increment (some (fun _ => 5)) 3600 0 [] 7 3 (by decide)⟩

/-- C6: when the query executor returns an empty array and the cache key is
unpopulated, queryCache stores the empty result; any subsequent call with the
same cache key (and a non-zero ttl option) returns the cached empty array,
does not execute the query, and leaves the state unchanged — a cached empty
result is a distinct state from the absence of an entry (the first call did
execute the query precisely because the entry was absent). -/
theorem C6_query_cache_empty_result (dbq : Sql → List Row) (h : Sql → String) (key : String)
    (version : Option String) (now : Int) (s : QState) (q : Sql) (o : QueryOptions)
    (o2 : Option QueryOptions)
    (hempty : dbq q = []) (httl : 0 < o.ttl)
    (hmiss : qget s now (qCacheKey key version h q) = none)
    (httl2 : o2.map QueryOptions.ttl ≠ some 0) :
    (queryCache dbq h key version now s q (some o)).1 = [] ∧
    (queryCache dbq h key version now s q (some o)).2.2 = true ∧
    qget (queryCache dbq h key version now s q (some o)).2.1 now
        (qCacheKey key version h q) = some [] ∧
    queryCache dbq h key version now
        (queryCache dbq h key version now s q (some o)).2.1 q o2 =
      ([], (queryCache dbq h key version now s q (some o)).2.1, false) := by
  have httlne : (some o).map QueryOptions.ttl ≠ some 0 := by
    simp only [Option.map_some', ne_eq, Option.some.injEq]
    omega
  have h1 : queryCache dbq h key version now s q (some o) =
      ([], tagCacheKey (qsetEx s now (qCacheKey key version h q) [] (some o.ttl))
        (qCacheKey key version h q) o.tag, true) := by
    unfold queryCache
    rw [if_neg httlne]
    simp only [hmiss, hempty, Option.map_some']
  have hkv : qget (tagCacheKey (qsetEx s now (qCacheKey key version h q) [] (some o.ttl))
      (qCacheKey key version h q) o.tag) now (qCacheKey key version h q) = some [] := by
    rw [qget_eq_of_kv (kv_tagCacheKey o.tag _ _)]
    unfold qget qsetEx
    simp only [Option.map_some']
    rw [aget_aset]
    simp only [if_pos rfl]
    have hlv : liveAt now (some (now + o.ttl * 1000)) = true := by
      simp only [liveAt, decide_eq_true_eq]
      omega
    simp [hlv]
  refine ⟨by rw [h1], by rw [h1], by rw [h1]; exact hkv, ?_⟩
  have hS2 : (queryCache dbq h key version now s q (some o)).2.1 =
      tagCacheKey (qsetEx s now (qCacheKey key version h q) [] (some o.ttl))
        (qCacheKey key version h q) o.tag := by
    rw [h1]
  rw [hS2]
  unfold queryCache
  rw [if_neg httl2]
  simp only [hkv]

/-- Witness for C6 at a concrete empty store, identity hash and empty query
result. -/
theorem C6_witness :
    ((fun _ : Sql => ([] : List Row)) "q" = [] ∧ (0 : Int) < 60 ∧
      qget ⟨[], []⟩ 0 (qCacheKey "k" none (fun q => q) "q") = none ∧
      (none : Option QueryOptions).map QueryOptions.ttl ≠ some 0) ∧
    ((queryCache (fun _ => []) (fun q => q) "k" none 0 ⟨[], []⟩ "q" (some ⟨60, []⟩)).1 = [] ∧
      (queryCache (fun _ => []) (fun q => q) "k" none 0 ⟨[], []⟩ "q" (some ⟨60, []⟩)).2.2 = true ∧
      qget (queryCache (fun _ => []) (fun q => q) "k" none 0 ⟨[], []⟩ "q"
          (some ⟨60, []⟩)).2.1 0 (qCacheKey "k" none (fun q => q) "q") = some [] ∧
      queryCache (fun _ => []) (fun q => q) "k" none 0
          (queryCache (fun _ => []) (fun q => q) "k" none 0 ⟨[], []⟩ "q"
            (some ⟨60, []⟩)).2.1 "q" none =
        ([], (queryCache (fun _ => []) (fun q => q) "k" none 0 ⟨[], []⟩ "q"
          (some ⟨60, []⟩)).2.1, false)) :=
  ⟨⟨rfl, by decide, by decide, by decide⟩,
   C6_query_cache_empty_result (fun _ => []) (fun q => q) "k" none 0 ⟨[], []⟩ "q" ⟨60, []⟩
     none rfl (by decide) (by decide) (by decide)⟩

/-- C7: bustCacheTag of a tag deletes the cache entry of every member key of
the tag's set and deletes the tag set itself; afterwards any queryCache call
whose cache key is one of those member keys executes the query (goes to the
source of truth). -/
theorem C7_bust_cache_tag (s : QState) (t k1 k2 : String) (now : Int)
    (h1 : k1 ∈ sMembers s ("tag:" ++ t)) (h2 : k2 ∈ sMembers s ("tag:" ++ t)) :
    aget (bustCacheTag s [t]).kv k1 = none ∧
    aget (bustCacheTag s [t]).kv k2 = none ∧
    sMembers (bustCacheTag s [t]) ("tag:" ++ t) = [] ∧
    (∀ (dbq : Sql → List Row) (h : Sql → String) (key : String) (version : Option String)
        (q : Sql) (o : Option QueryOptions),
      (qCacheKey key version h q = k1 ∨ qCacheKey key version h q = k2) →
      (queryCache dbq h key version now (bustCacheTag s [t]) q o).2.2 = true) := by
  have hkvdel : ∀ k ∈ sMembers s ("tag:" ++ t), aget (bustCacheTag s [t]).kv k = none := by
    intro k hk
    have hb : (bustCacheTag s [t]).kv =
        adel (((sMembers s ("tag:" ++ t)).foldl (fun st2 k2 => rdel st2 k2) s).kv)
          ("tag:" ++ t) := rfl
    rw [hb, aget_adel]
    by_cases he : ("tag:" ++ t) = k
    · simp [he]
    · rw [if_neg he, kv_foldl_rdel, aget_foldl_adel, if_pos hk]
  have hsets : sMembers (bustCacheTag s [t]) ("tag:" ++ t) = [] := by
    have hb : (bustCacheTag s [t]).sets =
        adel (((sMembers s ("tag:" ++ t)).foldl (fun st2 k2 => rdel st2 k2) s).sets)
          ("tag:" ++ t) := rfl
    show ((aget (bustCacheTag s [t]).sets ("tag:" ++ t)).getD []) = []
    rw [hb, aget_adel, if_pos rfl]
    rfl
  refine ⟨hkvdel k1 h1, hkvdel k2 h2, hsets, ?_⟩
  intro dbq h key version q o hk
  unfold queryCache
  by_cases ho : o.map QueryOptions.ttl = some 0
  · rw [if_pos ho]
  · rw [if_neg ho]
    have hq : qget (bustCacheTag s [t]) now (qCacheKey key version h q) = none := by
      unfold qget
      rcases hk with hk | hk
      · rw [hk, hkvdel k1 h1]
      · rw [hk, hkvdel k2 h2]
    simp only [hq]

/-- Witness for C7 at a concrete store with two keys tagged T. -/
theorem C7_witness :
    ("a" ∈ sMembers ⟨[("a", ([], none)), ("b", ([], none))], [("tag:" ++ "T", ["a", "b"])]⟩
        ("tag:" ++ "T") ∧
      "b" ∈ sMembers ⟨[("a", ([], none)), ("b", ([], none))], [("tag:" ++ "T", ["a", "b"])]⟩
        ("tag:" ++ "T")) ∧
    (aget (bustCacheTag ⟨[("a", ([], none)), ("b", ([], none))],
        [("tag:" ++ "T", ["a", "b"])]⟩ ["T"]).kv "a" = none ∧
      aget (bustCacheTag ⟨[("a", ([], none)), ("b", ([], none))],
        [("tag:" ++ "T", ["a", "b"])]⟩ ["T"]).kv "b" = none ∧
      sMembers (bustCacheTag ⟨[("a", ([], none)), ("b", ([], none))],
        [("tag:" ++ "T", ["a", "b"])]⟩ ["T"]) ("tag:" ++ "T") = [] ∧
      (∀ (dbq : Sql → List Row) (h : Sql → String) (key : String) (version : Option String)
          (q : Sql) (o : Option QueryOptions),
        (qCacheKey key version h q = "a" ∨ qCacheKey key version h q = "b") →
        (queryCache dbq h key version 0 (bustCacheTag ⟨[("a", ([], none)), ("b", ([], none))],
          [("tag:" ++ "T", ["a", "b"])]⟩ ["T"]) q o).2.2 = true)) :=
  ⟨⟨by decide, by decide⟩,
   C7_bust_cache_tag ⟨[("a", ([], none)), ("b", ([], none))], [("tag:" ++ "T", ["a", "b"])]⟩
     "T" "a" "b" 0 (by decide) (by decide)⟩

/-- C3: negative caching.  With cacheNotFound enabled, after a fetch([X]) for
an id the collaborator does not know (one lookup invocation, empty result), a
subsequent fetch([X]) returns an empty result set and performs zero lookup
invocations — the tombstone is excluded from the result and not treated as a
miss.  With cacheNotFound disabled nothing is written, so every fetch([X])
for the absent id re-invokes the collaborator. -/
theorem C3_negative_caching (ttl dbt : Int) (db : Nat → Option String) (now : Int)
    (s : Store) (X : Nat) (hdb : db X = none) (hmiss : rget s now X = none)
    (httl : 0 < ttl) :
    (fetch ⟨ttl, dbt, true, none⟩ db now s [X]).1 = [] ∧
    (fetch ⟨ttl, dbt, true, none⟩ db now s [X]).2.2 = [[X]] ∧
    fetch ⟨ttl, dbt, true, none⟩ db now (fetch ⟨ttl, dbt, true, none⟩ db now s [X]).2.1 [X] =
      ([], (fetch ⟨ttl, dbt, true, none⟩ db now s [X]).2.1, []) ∧
    fetch ⟨ttl, dbt, false, none⟩ db now s [X] = ([], s, [[X]]) ∧
    fetch ⟨ttl, dbt, false, none⟩ db now
        (fetch ⟨ttl, dbt, false, none⟩ db now s [X]).2.1 [X] = ([], s, [[X]]) := by
  have hA : fetch ⟨ttl, dbt, true, none⟩ db now s [X] =
      ([], writeNotFound now ttl s (X, tombstoneEntry X now), [[X]]) := by
    rw [fetch_single_absent ⟨ttl, dbt, true, none⟩ db now s X hdb hmiss rfl]
    rfl
  have hB : fetch ⟨ttl, dbt, false, none⟩ db now s [X] = ([], s, [[X]]) := by
    rw [fetch_single_absent ⟨ttl, dbt, false, none⟩ db now s X hdb hmiss rfl]
    rfl
  have hag : aget (writeNotFound now ttl s (X, tombstoneEntry X now)) X =
      some (tombstoneEntry X now, some (now + ttl * 1000)) :=
    aget_writeNotFound_self_dead now ttl s (X, tombstoneEntry X now) hmiss
  have hrg : rget (writeNotFound now ttl s (X, tombstoneEntry X now)) now X =
      some (tombstoneEntry X now) := by
    unfold rget
    rw [hag]
    have hlv : liveAt now (some (now + ttl * 1000)) = true := by
      simp only [liveAt, decide_eq_true_eq]
      omega
    simp [hlv]
  refine ⟨by rw [hA], by rw [hA], ?_, hB, ?_⟩
  · rw [hA]
    exact fetch_single_tombstone ⟨ttl, dbt, true, none⟩ db now _ X (tombstoneEntry X now)
      hrg rfl rfl rfl
  · rw [hB]
    exact hB

/-- Witness for C3 at a concrete empty store and empty database. -/
theorem C3_witness :
    ((fun _ : Nat => (none : Option String)) 5 = none ∧ rget [] 0 5 = none ∧ (0 : Int) < 30) ∧
    ((fetch ⟨30, 10, true, none⟩ (fun _ => none) 0 [] [5]).1 = [] ∧
      (fetch ⟨30, 10, true, none⟩ (fun _ => none) 0 [] [5]).2.2 = [[5]] ∧
      fetch ⟨30, 10, true, none⟩ (fun _ => none) 0
          (fetch ⟨30, 10, true, none⟩ (fun _ => none) 0 [] [5]).2.1 [5] =
        ([], (fetch ⟨30, 10, true, none⟩ (fun _ => none) 0 [] [5]).2.1, []) ∧
      fetch ⟨30, 10, false, none⟩ (fun _ => none) 0 [] [5] = ([], [], [[5]]) ∧
      fetch ⟨30, 10, false, none⟩ (fun _ => none) 0
          (fetch ⟨30, 10, false, none⟩ (fun _ => none) 0 [] [5]).2.1 [5] =
        ([], [], [[5]])) :=
  ⟨⟨rfl, by decide, by decide⟩,
   C3_negative_caching 30 10 (fun _ => none) 0 [] 5 rfl (by decide) (by decide)⟩

/-- C2 counterexample: the claim's strict equality of result sets fails.
From an empty cache, the first fetch([1]) returns the collaborator's entity
(no cachedAt field), while the second fetch([1]) returns the cached copy
carrying the cachedAt stamp the write-back added, so the two results — and
hence the two result sets — are unequal, even though the second call makes
zero lookup invocations. -/
theorem C2_counterexample :
    let cfg : CacheConfig := ⟨30, 10, true, none⟩
    let db : Nat → Option String := fun i => if i = 1 then some "A" else none
    let r1 := fetch cfg db 0 [] [1]
    let r2 := fetch cfg db 0 r1.2.1 [1]
    r1.1 = [entityOf 1 "A"] ∧
    r2.1 = [{ entityOf 1 "A" with cachedAt := some 0 }] ∧
    r2.2.2 = [] ∧
    ¬r1.1 = r2.1 := by
  decide

/-- C2 (amended): calling fetch twice with the same ids — under the default
configuration (cacheNotFound on, no append collaborator, positive ttl), from
a store whose live entries are keyed by their own id field and hold no
debounce marker for a requested id (no recent bust) — makes zero
lookup-collaborator invocations on the second call, and the two result sets
are equal up to the cachedAt envelope field (the second call's results carry
the cachedAt stamp added by the write-back, which the first call's fresh
lookup results lack). -/
theorem C2_fetch_idempotent_upto_cachedAt (cfg : CacheConfig) (db : Nat → Option String)
    (now : Int) (s : Store) (ids : List Nat)
    (haf : cfg.appendFn = none) (hcnf : cfg.cacheNotFound = true) (httl : 0 < cfg.ttl)
    (hwf : ∀ i ∈ ids, ∀ p : Entry × Option Int, aget s i = some p → p.1.id = i)
    (hdeb : ∀ i ∈ ids, ∀ e : Entry, rget s now i = some e → e.debounce = false) :
    (fetch cfg db now (fetch cfg db now s ids).2.1 ids).2.2 = [] ∧
    ((fetch cfg db now (fetch cfg db now s ids).2.1 ids).1.map stripCachedAt).Perm
      ((fetch cfg db now s ids).1.map stripCachedAt) := by
  by_cases hids : ids.isEmpty = true
  · have h0 : fetch cfg db now s ids = ([], s, []) := by
      simp [fetch, hids]
    rw [show (fetch cfg db now s ids).2.1 = s from by rw [h0]]
    exact ⟨by rw [h0], List.Perm.refl _⟩
  · have hids' : ids.isEmpty = false := by
      cases h : ids.isEmpty
      · rfl
      · exact absurd h hids
    have hlookup1 : ∀ i ∈ dedupNat ids,
        aget (jsFromEntries ((cacheResultsOf s now ids).map (fun x => (x.id, x)))) i =
          rget s now i :=
      fun i hi => cacheTable_lookup s now ids hwf i ((mem_dedupNat ids i).mp hi)
    have hclass1 := classifyLoop_spec
      (jsFromEntries ((cacheResultsOf s now ids).map (fun x => (x.id, x))))
      (now - cfg.debounceTime * 1000) (fun i => rget s now i) (dedupNat ids) hlookup1
    have hdont : (dedupNat ids).filter
        (fun i => isDont (now - cfg.debounceTime * 1000) (rget s now i)) = [] := by
      rw [List.filter_eq_nil_iff]
      intro i hi
      cases hr : rget s now i with
      | none => simp [isDont]
      | some e =>
        have hd := hdeb i ((mem_dedupNat ids i).mp hi) e hr
        cases hnf : e.notFound <;> simp [isDont, hd, hnf]
    have hmissnone : ∀ i ∈ (dedupNat ids).filter (fun j => isMiss (rget s now j)),
        rget s now i = none := by
      intro i hi
      obtain ⟨hiu, hmi⟩ := List.mem_filter.mp hi
      cases hr : rget s now i with
      | none => rfl
      | some e =>
        have hd := hdeb i ((mem_dedupNat ids i).mp hiu) e hr
        rw [hr] at hmi
        cases hnf : e.notFound <;> simp [isMiss, hnf, hd] at hmi
    have hnodupM : ((dedupNat ids).filter (fun j => isMiss (rget s now j))).Nodup :=
      (nodup_dedupNat ids).filter _
    by_cases hM : ((dedupNat ids).filter (fun j => isMiss (rget s now j))).isEmpty = true
    · have h1 : fetch cfg db now s ids =
          ((dedupNat ids).filterMap (fun i => hitOf (rget s now i)), s, []) := by
        simp only [fetch, hids', Bool.false_eq_true, if_false, hclass1, haf, applyAppend]
        simp [hM]
      rw [show (fetch cfg db now s ids).2.1 = s from by rw [h1]]
      exact ⟨by rw [h1], List.Perm.refl _⟩
    · have hM' : ((dedupNat ids).filter (fun j => isMiss (rget s now j))).isEmpty = false := by
        cases h : ((dedupNat ids).filter (fun j => isMiss (rget s now j))).isEmpty
        · rfl
        · exact absurd h hM
      have hlookdb : ∀ i ∈ (dedupNat ids).filter (fun j => isMiss (rget s now j)),
          aget (dbResultsOf db ((dedupNat ids).filter (fun j => isMiss (rget s now j)))) i =
            (db i).map (fun v => entityOf i v) :=
        fun i hi => aget_dbResultsOf db _ i hi
      have hmloop := missLoop_spec
        (dbResultsOf db ((dedupNat ids).filter (fun j => isMiss (rget s now j)))) []
        now cfg.cacheNotFound (fun i => (db i).map (fun v => entityOf i v)) _ hlookdb
      rw [hcnf] at hmloop
      have h1 : fetch cfg db now s ids =
          ((dedupNat ids).filterMap (fun i => hitOf (rget s now i)) ++
            ((dedupNat ids).filter (fun j => isMiss (rget s now j))).filterMap
              (fun i => (db i).map (fun v => entityOf i v)),
           writeTombstones now cfg.ttl (writeCache now cfg.ttl s
             (((dedupNat ids).filter (fun j => isMiss (rget s now j))).filterMap
               (fun j => ((db j).map (fun v => entityOf j v)).map
                 (fun r => (j, { r with cachedAt := some now })))))
             (((dedupNat ids).filter (fun j => isMiss (rget s now j))).filterMap
               (tombstoneFor (fun i => (db i).map (fun v => entityOf i v)) now true)),
           chunkList 10000 ((dedupNat ids).filter (fun j => isMiss (rget s now j)))) := by
        simp only [fetch, hids', Bool.false_eq_true, if_false, hclass1, hdont, hM',
          hcnf, haf, applyAppend]
        simp [hmloop]
      obtain ⟨hwbA, hwbB, hwbC⟩ := writeback_state now cfg.ttl s
        ((dedupNat ids).filter (fun j => isMiss (rget s now j)))
        (fun i => (db i).map (fun v => entityOf i v)) hnodupM
      have hlive : liveAt now (some (now + cfg.ttl * 1000)) = true := by
        simp only [liveAt, decide_eq_true_eq]
        omega
      have hwf2 : ∀ i ∈ ids, ∀ p : Entry × Option Int,
          aget (writeTombstones now cfg.ttl (writeCache now cfg.ttl s
            (((dedupNat ids).filter (fun j => isMiss (rget s now j))).filterMap
              (fun j => ((db j).map (fun v => entityOf j v)).map
                (fun r => (j, { r with cachedAt := some now })))))
            (((dedupNat ids).filter (fun j => isMiss (rget s now j))).filterMap
              (tombstoneFor (fun i => (db i).map (fun v => entityOf i v)) now true))) i =
            some p → p.1.id = i := by
        intro i hi p hp
        by_cases him : i ∈ (dedupNat ids).filter (fun j => isMiss (rget s now j))
        · cases hdb : db i with
          | some v =>
            have hb : aget (writeTombstones now cfg.ttl (writeCache now cfg.ttl s
                (((dedupNat ids).filter (fun j => isMiss (rget s now j))).filterMap
                  (fun j => ((db j).map (fun v => entityOf j v)).map
                    (fun r => (j, { r with cachedAt := some now })))))
                (((dedupNat ids).filter (fun j => isMiss (rget s now j))).filterMap
                  (tombstoneFor (fun i => (db i).map (fun v => entityOf i v)) now true))) i =
                some ({ entityOf i v with cachedAt := some now },
                  some (now + cfg.ttl * 1000)) :=
              hwbB i him (entityOf i v) (by rw [hdb]; rfl)
            rw [hb] at hp
            injection hp with hp
            rw [← hp]
            rfl
          | none =>
            have hb : aget (writeTombstones now cfg.ttl (writeCache now cfg.ttl s
                (((dedupNat ids).filter (fun j => isMiss (rget s now j))).filterMap
                  (fun j => ((db j).map (fun v => entityOf j v)).map
                    (fun r => (j, { r with cachedAt := some now })))))
                (((dedupNat ids).filter (fun j => isMiss (rget s now j))).filterMap
                  (tombstoneFor (fun i => (db i).map (fun v => entityOf i v)) now true))) i =
                some (tombstoneEntry i now, some (now + cfg.ttl * 1000)) :=
              hwbC i him (by rw [hdb]; rfl) (hmissnone i him)
            rw [hb] at hp
            injection hp with hp
            rw [← hp]
            rfl
        · have ha : aget (writeTombstones now cfg.ttl (writeCache now cfg.ttl s
              (((dedupNat ids).filter (fun j => isMiss (rget s now j))).filterMap
                (fun j => ((db j).map (fun v => entityOf j v)).map
                  (fun r => (j, { r with cachedAt := some now })))))
              (((dedupNat ids).filter (fun j => isMiss (rget s now j))).filterMap
                (tombstoneFor (fun i => (db i).map (fun v => entityOf i v)) now true))) i =
              aget s i := hwbA i him
          rw [ha] at hp
          exact hwf i hi p hp
      have hstate : (fetch cfg db now s ids).2.1 =
          writeTombstones now cfg.ttl (writeCache now cfg.ttl s
            (((dedupNat ids).filter (fun j => isMiss (rget s now j))).filterMap
              (fun j => ((db j).map (fun v => entityOf j v)).map
                (fun r => (j, { r with cachedAt := some now })))))
            (((dedupNat ids).filter (fun j => isMiss (rget s now j))).filterMap
              (tombstoneFor (fun i => (db i).map (fun v => entityOf i v)) now true)) := by
        rw [h1]
      rw [hstate]
      set S1 : Store := writeTombstones now cfg.ttl (writeCache now cfg.ttl s
          (((dedupNat ids).filter (fun j => isMiss (rget s now j))).filterMap
            (fun j => ((db j).map (fun v => entityOf j v)).map
              (fun r => (j, { r with cachedAt := some now })))))
          (((dedupNat ids).filter (fun j => isMiss (rget s now j))).filterMap
            (tombstoneFor (fun i => (db i).map (fun v => entityOf i v)) now true)) with hS1
      have hM2 : (dedupNat ids).filter (fun j => isMiss (rget S1 now j)) = [] := by
        rw [List.filter_eq_nil_iff]
        intro i hi
        by_cases him : i ∈ (dedupNat ids).filter (fun j => isMiss (rget s now j))
        · cases hdb : db i with
          | some v =>
            have hb : aget S1 i = some ({ entityOf i v with cachedAt := some now },
                some (now + cfg.ttl * 1000)) := hwbB i him (entityOf i v) (by rw [hdb]; rfl)
            have hr : rget S1 now i = some { entityOf i v with cachedAt := some now } :=
              rget_of_aget_live now hb hlive
            rw [hr]
            simp [isMiss, entityOf]
          | none =>
            have hb : aget S1 i = some (tombstoneEntry i now, some (now + cfg.ttl * 1000)) :=
              hwbC i him (by rw [hdb]; rfl) (hmissnone i him)
            have hr : rget S1 now i = some (tombstoneEntry i now) :=
              rget_of_aget_live now hb hlive
            rw [hr]
            simp [isMiss, tombstoneEntry]
        · have hr : rget S1 now i = rget s now i := rget_congr now (hwbA i him)
          rw [hr]
          cases hrs : rget s now i with
          | none =>
            exact absurd (List.mem_filter.mpr ⟨hi, by simp [hrs, isMiss]⟩) him
          | some e =>
            have hd := hdeb i ((mem_dedupNat ids i).mp hi) e hrs
            cases hnf : e.notFound <;> simp [isMiss, hnf, hd]
      have hlookup2 : ∀ i ∈ dedupNat ids,
          aget (jsFromEntries ((cacheResultsOf S1 now ids).map (fun x => (x.id, x)))) i =
            rget S1 now i :=
        fun i hi => cacheTable_lookup S1 now ids (hS1 ▸ hwf2) i ((mem_dedupNat ids i).mp hi)
      have hclass2 := classifyLoop_spec
        (jsFromEntries ((cacheResultsOf S1 now ids).map (fun x => (x.id, x))))
        (now - cfg.debounceTime * 1000) (fun i => rget S1 now i) (dedupNat ids) hlookup2
      have h2 : fetch cfg db now S1 ids =
          ((dedupNat ids).filterMap (fun i => hitOf (rget S1 now i)), S1, []) := by
        simp only [fetch, hids', Bool.false_eq_true, if_false, hclass2, hM2, haf, applyAppend]
        simp
      refine ⟨by rw [h2], ?_⟩
      rw [h2, h1]
      simp only [List.map_append, List.map_filterMap, List.filterMap_filter]
      refine perm_filterMap_split (dedupNat ids) _ _ _ ?_
      intro i hi
      cases hrs : rget s now i with
      | some e =>
        have him : i ∉ (dedupNat ids).filter (fun j => isMiss (rget s now j)) := by
          intro hin
          have hn := hmissnone i hin
          rw [hrs] at hn
          cases hn
        have hr1 : rget S1 now i = some e := by
          rw [rget_congr now (hwbA i him), hrs]
        left
        constructor
        · rw [hr1]
        · have hd := hdeb i ((mem_dedupNat ids i).mp hi) e hrs
          cases hnf : e.notFound <;> simp [isMiss, hnf, hd]
      | none =>
        have him : i ∈ (dedupNat ids).filter (fun j => isMiss (rget s now j)) :=
          List.mem_filter.mpr ⟨hi, by simp [hrs, isMiss]⟩
        right
        constructor
        · rfl
        · cases hdb : db i with
          | some v =>
            have hb : aget S1 i = some ({ entityOf i v with cachedAt := some now },
                some (now + cfg.ttl * 1000)) := hwbB i him (entityOf i v) (by rw [hdb]; rfl)
            have hr1 : rget S1 now i = some { entityOf i v with cachedAt := some now } :=
              rget_of_aget_live now hb hlive
            rw [hr1]
            simp [hitOf, isMiss, entityOf, stripCachedAt]
          | none =>
            have hb : aget S1 i = some (tombstoneEntry i now, some (now + cfg.ttl * 1000)) :=
              hwbC i him (by rw [hdb]; rfl) (hmissnone i him)
            have hr1 : rget S1 now i = some (tombstoneEntry i now) :=
              rget_of_aget_live now hb hlive
            rw [hr1]
            simp [hitOf, isMiss, tombstoneEntry]

/-- Witness for C2 at a concrete empty store, two requested ids, one of them
known to the collaborator. -/
theorem C2_witness :
    ((0 : Int) < (30 : Int) ∧
      (∀ i ∈ [1, 2], ∀ p : Entry × Option Int, aget ([] : Store) i = some p → p.1.id = i) ∧
      (∀ i ∈ [1, 2], ∀ e : Entry, rget ([] : Store) 0 i = some e → e.debounce = false)) ∧
    ((fetch ⟨30, 10, true, none⟩ (fun i => if i = 1 then some "A" else none) 0
        (fetch ⟨30, 10, true, none⟩ (fun i => if i = 1 then some "A" else none) 0 [] [1, 2]).2.1
        [1, 2]).2.2 = [] ∧
      ((fetch ⟨30, 10, true, none⟩ (fun i => if i = 1 then some "A" else none) 0
          (fetch ⟨30, 10, true, none⟩ (fun i => if i = 1 then some "A" else none) 0 [] [1, 2]).2.1
          [1, 2]).1.map stripCachedAt).Perm
        ((fetch ⟨30, 10, true, none⟩ (fun i => if i = 1 then some "A" else none) 0
          [] [1, 2]).1.map stripCachedAt)) :=
  ⟨⟨by decide,
    by intro i _ p hp; simp [aget] at hp,
    by intro i _ e he; simp [rget, aget] at he⟩,
   C2_fetch_idempotent_upto_cachedAt ⟨30, 10, true, none⟩
     (fun i => if i = 1 then some "A" else none) 0 [] [1, 2] rfl rfl (by decide)
     (by intro i _ p hp; simp [aget] at hp)
     (by intro i _ e he; simp [rget, aget] at he)⟩

end CacheHelpers
